import Mathlib

/-!
Verification development for the `@nlpjs/core` container and pipeline runtime
(`packages/core/src/container.ts` together with its default compiler
`packages/core/src/default-compiler.ts`).

The TypeScript source is shallowly embedded: JavaScript runtime values become
the inductive `JSValue` (objects are ordered association structures `JSObj`,
numbers are modelled as integers — every number occurring in the verified
programs is a small integer on which IEEE doubles are exact, plus a `nan`
value produced by arithmetic on `undefined`), thrown errors become an
`Except RunErr` result, and in-place mutation of the `context` / `input` /
`srcObject` objects becomes explicit state passing on `ExecState` (the three
roots are separate fields, which renders the source's reference mutation
functionally; aliasing between the three roots, callable values, and the
mutation of registered components through paths are outside the modelled
fragment — none of the verified programs exercise them).
The `while` loop of `DefaultCompiler.execute` and the mutual recursion
through `runPipeline` are made total with a fuel parameter; fuel exhaustion
is the distinguished result `RunErr.outOfFuel`, never produced in any theorem
below (each concrete evaluation is run with ample fuel).
-/

/-- Errors thrown by the container / interpreter.  `typeError` stands for the
host TypeErrors raised by property access or method calls on `undefined`,
the remaining constructors are the `throw new Error(...)` sites of the
source. -/
inductive RunErr where
  | outOfFuel
  | depthExceeded
  | pipelineNotFound (tag : String)
  | pathNotFound (step : String)
  | methodNotFound
  | typeError
  deriving DecidableEq, Repr

deriving instance DecidableEq for Except

mutual
/-- JavaScript runtime values as manipulated by the container.  `nan` is the
result of arithmetic involving `undefined` (e.g. `undefined + 1`). -/
inductive JSValue where
  | undefined
  | null
  | nan
  | num (n : Int)
  | str (s : String)
  | bool (b : Bool)
  | obj (fields : JSObj)
  deriving Repr

/-- Ordered fields of a JavaScript object (insertion order preserved, as for
JS string-keyed properties). -/
inductive JSObj where
  | nil
  | cons (key : String) (value : JSValue) (rest : JSObj)
  deriving Repr
end

mutual
def JSValue.beqv : JSValue → JSValue → Bool
  | .undefined, .undefined => true
  | .null, .null => true
  | .nan, .nan => true
  | .num a, .num b => a == b
  | .str a, .str b => a == b
  | .bool a, .bool b => a == b
  | .obj a, .obj b => JSObj.beqo a b
  | _, _ => false

def JSObj.beqo : JSObj → JSObj → Bool
  | .nil, .nil => true
  | .cons k v r, .cons k' v' r' => k == k' && JSValue.beqv v v' && JSObj.beqo r r'
  | _, _ => false
end

mutual
theorem JSValue.beqv_iff : ∀ a b : JSValue, JSValue.beqv a b = true ↔ a = b
  | .undefined, b => by cases b <;> simp [JSValue.beqv]
  | .null, b => by cases b <;> simp [JSValue.beqv]
  | .nan, b => by cases b <;> simp [JSValue.beqv]
  | .num a, b => by cases b <;> simp [JSValue.beqv]
  | .str a, b => by cases b <;> simp [JSValue.beqv]
  | .bool a, b => by cases b <;> simp [JSValue.beqv]
  | .obj a, b => by
      cases b <;> simp [JSValue.beqv]
      exact JSObj.beqo_iff a _

theorem JSObj.beqo_iff : ∀ a b : JSObj, JSObj.beqo a b = true ↔ a = b
  | .nil, b => by cases b <;> simp [JSObj.beqo]
  | .cons k v r, b => by
      cases b with
      | nil => simp [JSObj.beqo]
      | cons k' v' r' =>
        simp [JSObj.beqo, JSValue.beqv_iff v v', JSObj.beqo_iff r r']
        tauto
end

instance : DecidableEq JSValue := fun a b =>
  decidable_of_iff (JSValue.beqv a b = true) (JSValue.beqv_iff a b)

instance : DecidableEq JSObj := fun a b =>
  decidable_of_iff (JSObj.beqo a b = true) (JSObj.beqo_iff a b)

/-- Property read on a JS object: `undefined` for missing keys. -/
def JSObj.lookup : JSObj → String → Option JSValue
  | .nil, _ => none
  | .cons k v r, key => if k == key then some v else JSObj.lookup r key

/-- Property assignment on a JS object: existing keys keep their position,
new keys are appended (JS insertion-order semantics). -/
def JSObj.set : JSObj → String → JSValue → JSObj
  | .nil, key, v => .cons key v .nil
  | .cons k w r, key, v =>
    if k == key then .cons k v r else .cons k w (JSObj.set r key v)

/-- The `delete` operator on a JS object. -/
def JSObj.remove : JSObj → String → JSObj
  | .nil, _ => .nil
  | .cons k w r, key => if k == key then r else .cons k w (JSObj.remove r key)

/-- `Object.assign(a, b)`: copy each field of `b` onto `a` in order. -/
def JSObj.assign : JSObj → JSObj → JSObj
  | a, .nil => a
  | a, .cons k v r => JSObj.assign (a.set k v) r

/-- JS truthiness. -/
def jsTruthy : JSValue → Bool
  | .undefined => false
  | .null => false
  | .nan => false
  | .num n => n != 0
  | .str s => s != ""
  | .bool b => b
  | .obj _ => true

/-- Property access `v[key]`, throwing a TypeError on `undefined`/`null`
(property reads on other primitives yield `undefined`). -/
def jsMember : JSValue → String → Except RunErr JSValue
  | .undefined, _ => .error .typeError
  | .null, _ => .error .typeError
  | .obj f, key => .ok ((f.lookup key).getD .undefined)
  | _, _ => .ok .undefined

/-- Total variant of `jsMember`, only ever used on values that are known not
to throw (or where the source guarded the access). -/
def jsMemberD (v : JSValue) (key : String) : JSValue :=
  ((jsMember v key).toOption).getD .undefined

/-- JS `+` restricted to the fragment the container exercises: two numbers
add, a string operand concatenates (via JS string coercion), and `undefined`
or `nan` operands give `NaN`. -/
def jsToString : JSValue → String
  | .undefined => "undefined"
  | .null => "null"
  | .nan => "NaN"
  | .num n => toString n
  | .str s => s
  | .bool b => if b then "true" else "false"
  | .obj _ => "[object Object]"

def jsAdd : JSValue → JSValue → JSValue
  | .str a, b => .str (a ++ jsToString b)
  | a, .str b => .str (jsToString a ++ b)
  | .num a, .num b => .num (a + b)
  | _, _ => .nan

def jsSub : JSValue → JSValue → JSValue
  | .num a, .num b => .num (a - b)
  | _, _ => .nan

/-- JS strict equality `===` on the modelled values.  Two `obj` values compare
by reference in JS; distinct object expressions are unequal, and the verified
programs only ever compare primitives, so `obj` operands yield `false`. -/
def jsStrictEq : JSValue → JSValue → Bool
  | .undefined, .undefined => true
  | .null, .null => true
  | .num a, .num b => a == b
  | .str a, .str b => a == b
  | .bool a, .bool b => a == b
  | _, _ => false

/-- JS `<` on the fragment exercised: numbers compare numerically, strings
lexicographically, any other combination (including `NaN`) is `false`
(cf. spec section 4.B ordering note). -/
def jsLt : JSValue → JSValue → Bool
  | .num a, .num b => a < b
  | .str a, .str b => a < b
  | _, _ => false

def jsLe : JSValue → JSValue → Bool
  | .num a, .num b => a ≤ b
  | .str a, .str b => a ≤ b
  | _, _ => false

def jsGt (a b : JSValue) : Bool := jsLt b a
def jsGe (a b : JSValue) : Bool := jsLe b a


/-! ## String primitives

The JS string methods the source uses (`trim`, `split`, `startsWith`,
`endsWith`, `slice`, numeric parsing) are implemented here on character
lists by structural recursion: the Lean core `String` functions run on byte
positions via well-founded recursion, which the kernel cannot unfold when a
theorem evaluates a concrete execution. -/

def strStartsWith (s pre : String) : Bool := pre.toList.isPrefixOf s.toList

def strEndsWith (s suf : String) : Bool := suf.toList.isSuffixOf s.toList

def strTrim (s : String) : String :=
  (((s.toList.dropWhile Char.isWhitespace).reverse.dropWhile
      Char.isWhitespace).reverse).asString

def strDrop (s : String) (n : Nat) : String := (s.toList.drop n).asString

def strDropRight (s : String) (n : Nat) : String :=
  (s.toList.take (s.toList.length - n)).asString

def strLen (s : String) : Nat := s.toList.length

/-- JS `s.split(c)` for a single-character separator (empty pieces are
kept: `''.split('.')` is `['']`). -/
def splitCharGo (c : Char) : List Char → List Char → List String
  | [], acc => [acc.reverse.asString]
  | x :: xs, acc =>
    if x == c then acc.reverse.asString :: splitCharGo c xs []
    else splitCharGo c xs (x :: acc)

def strSplitOn (s : String) (c : Char) : List String := splitCharGo c s.toList []

def strJoin (sep : String) : List String → String
  | [] => ""
  | [x] => x
  | x :: y :: xs => x ++ sep ++ strJoin sep (y :: xs)

/-- `parseFloat` on a token that matched `/^\d+$/`. -/
def digitsToNat : List Char → Nat → Nat
  | [], acc => acc
  | c :: cs, acc => digitsToNat cs (acc * 10 + (c.toNat - 48))

def parseDigits (s : String) : Int := Int.ofNat (digitsToNat s.toList 0)

/-! ## Wildcard matcher (spec-modelled)

`compareWildcards` is imported from `./helper`, which is not among the source
files; only its callers are.  It is modelled from the spec, section 4.A:
"Two strings are compared as glob patterns: `*` matches any run of
characters, `?` matches one character, others match literally.  The matcher
is commutative in intent (either side may contain wildcards)." -/

/-- Glob matching with the first argument as the pattern (structural
recursion on a fuel bound: every step shortens the pattern or the text, so
`p.length + t.length + 1` steps always suffice). -/
def globMatchF : Nat → List Char → List Char → Bool
  | 0, _, _ => false
  | _ + 1, [], [] => true
  | _ + 1, [], _ :: _ => false
  | fuel + 1, p :: ps, [] => if p == '*' then globMatchF fuel ps [] else false
  | fuel + 1, p :: ps, c :: cs =>
    if p == '*' then globMatchF fuel ps (c :: cs) || globMatchF fuel (p :: ps) cs
    else if p == '?' then globMatchF fuel ps cs
    else p == c && globMatchF fuel ps cs

def globMatch (p t : List Char) : Bool := globMatchF (p.length + t.length + 1) p t

/-- Modelled from the spec: `compareWildcards` from `./helper` (not under
`src/`), section 4.A — glob comparison, commutative in intent, so either
argument may carry the wildcards. -/
def compareWildcards (a b : String) : Bool :=
  globMatch a.toList b.toList || globMatch b.toList a.toList

/-! ## Default compiler: tokenizer (`DefaultCompiler.getTokenFromWord`,
`DefaultCompiler.compile`) -/

/-- A compiled token (`default-compiler.ts`): `opTok` covers the fifteen
operation words whose JS token is `{type: word, arguments: []}`; the other
three constructors carry a `value` string. -/
inductive Token where
  | comment (value : String)
  | opTok (kind : String)
  | call (value : String)
  | reference (value : String)
  deriving DecidableEq, Repr

/-- The `value` property of a token (`undefined`, i.e. `none`, for operation
tokens). -/
def tokenValue : Token → Option String
  | .comment v => some v
  | .opTok _ => none
  | .call v => some v
  | .reference v => some v

/-- Rebuild a token with a new `value` (the spread-copy in `executeAction`'s
`->` handling); operation tokens have no `value` and are returned as is. -/
def tokenWithValue : Token → String → Token
  | .comment _, v => .comment v
  | .opTok k, _ => .opTok k
  | .call _, v => .call v
  | .reference _, v => .reference v

def opWords : List String :=
  ["set", "delete", "get", "inc", "dec", "eq", "neq", "gt", "ge", "lt", "le",
   "label", "goto", "jne", "je"]

/-- `DefaultCompiler.getTokenFromWord`. -/
def getTokenFromWord (word : String) : Token :=
  if strStartsWith word "//" then .comment word
  else if opWords.contains word then .opTok word
  else if strStartsWith word "$" then .call (strDrop word 1)
  else .reference word

/-- The single-quote character, and single-quote string. -/
def squoteC : Char := Char.ofNat 39
def squote : String := [squoteC].asString

/-- The inner word loop of `DefaultCompiler.compile`: quote-aware token
accumulation.  `currentString`/`currentQuote` are the loop-carried state; a
pending unterminated quoted string is discarded when the words run out, as in
the source. -/
def compileWords : List String → String → Option Char → List Token → List Token
  | [], _, _, tokens => tokens
  | word :: rest, currentString, currentQuote, tokens =>
    match currentQuote with
    | none =>
      if strStartsWith word "\"" then
        if strEndsWith word "\"" then
          compileWords rest word none (tokens ++ [getTokenFromWord word])
        else
          compileWords rest word (some '"') tokens
      else if strStartsWith word squote then
        if strEndsWith word squote then
          compileWords rest word none (tokens ++ [getTokenFromWord word])
        else
          compileWords rest word (some squoteC) tokens
      else
        compileWords rest currentString none (tokens ++ [getTokenFromWord word])
    | some q =>
      let currentString := currentString ++ " " ++ word
      if strEndsWith word ([q].asString) then
        compileWords rest currentString none (tokens ++ [getTokenFromWord currentString])
      else
        compileWords rest currentString (some q) tokens

/-- One line of `DefaultCompiler.compile`: trim, split on a single space,
then run the quote-aware word loop.  Note that JS `''.split(' ')` is `['']`,
so an empty line still produces one (reference) token. -/
def compileLine (line : String) : List Token :=
  compileWords (strSplitOn (strTrim line) ' ') "" none []

/-- `DefaultCompiler.compile`. -/
def compile (pipeline : List String) : List (List Token) :=
  pipeline.map compileLine

/-! ## `Container.buildPipeline` -/

/-- The inner loop of `buildPipeline`'s `$super` expansion: keep the previous
pipeline's lines whose trimmed value does not start with `->`. -/
def keepPrevLines : List String → List String
  | [] => []
  | l :: ls =>
    if (strStartsWith (strTrim l) "->") then keepPrevLines ls else l :: keepPrevLines ls

/-- The outer loop of `buildPipeline`: a line whose trimmed value is exactly
`$super` is replaced by the surviving previous lines, all others are kept. -/
def buildLines : List String → List String → List String
  | [], _ => []
  | line :: rest, prev =>
    (if strTrim line == "$super" then keepPrevLines prev else [line])
      ++ buildLines rest prev

/-- A stored pipeline: the post-expansion source lines, the selected compiler
name, and the compiled instruction vectors.  The model registers only the
default compiler (the container constructor installs it and the verified
scenarios register no other), so `getCompiler` always resolves to the default
compiler and `compiled` is its output. -/
structure BuiltPipeline where
  pipeline : List String
  compilerName : String
  compiled : List (List Token)
  deriving DecidableEq, Repr

/-- `Container.buildPipeline` (the `srcPipeline && srcPipeline.length > 0`
guard is subsumed by `buildLines [] _ = []`). -/
def buildPipeline (srcPipeline : List String) (prevPipeline : List String := []) :
    BuiltPipeline :=
  let pipeline := buildLines srcPipeline prevPipeline
  let compilerName :=
    match pipeline with
    | [] => "default"
    | l0 :: _ => if strStartsWith l0 "// compiler=" then strDrop l0 12 else "default"
  { pipeline := pipeline, compilerName := compilerName,
    compiled := compile pipeline }

/-! ## Path resolver (`Container.resolvePathWithType` and the value
primitives)

The resolver receives the execution state as three separate roots.  The
container lookup `this.get(token)` performed for unrecognised root tokens is
abstracted as a pure function `getFn : String → Option JSValue`; the
interpreter theorems instantiate it with the empty lookup (the verified
pipelines never name a registered component, and `get`'s wildcard-cache
memoisation cannot change any lookup result in the absence of registration
mutations, so it is not threaded through the resolver). -/

/-- The mutable objects a pipeline instruction can touch: the execution
context, the current input, and the `srcObject`.  Modelled as separate
fields (see the header note on aliasing). -/
structure ExecState where
  ctx : JSValue
  inp : JSValue
  src : JSValue
  deriving DecidableEq, Repr

/-- Result of `resolvePathWithType`.  The source's third variant
(`type: 'function'`) is unreachable here because callable values are outside
the modelled value fragment. -/
inductive Resolved where
  | literal (subtype : String) (value : JSValue)
  | reference (value : JSValue)
  deriving DecidableEq, Repr

def Resolved.value : Resolved → JSValue
  | .literal _ v => v
  | .reference v => v

/-- First token of a step, with the defaulting of empty heads
(`'this'` when the step starts with `.`, else `'context'`). -/
def headToken (step : String) : String :=
  let t := strTrim ((strSplitOn step '.').headD "")
  if t == "" then (if strStartsWith step "." then "this" else "context") else t

/-- The `/^\d+$/` test. -/
def isNumericToken (t : String) : Bool := t != "" && t.toList.all Char.isDigit

/-- Effect of the quote-stripping regex replace: `"X"` with non-empty `X`
loses its outer quotes, anything else is left unchanged. -/
def stripOuter (q : String) (token : String) : String :=
  if strLen token ≥ 3 && strEndsWith token q then strDropRight (strDrop token 1) 1
  else token

/-- Does the head token take one of the literal branches (number, quoted
string, boolean)?  Literals stop processing: the remaining tokens are not
applied. -/
def literalHead (step : String) : Bool :=
  let token := headToken step
  isNumericToken token || strStartsWith token "\"" || strStartsWith token squote ||
    token == "true" || token == "false"

/-- Root selection of `resolvePathWithType` (the `currentObject` after the
`if/else if` chain on the head token).  `this.get(token) || context[token]`
becomes: the `getFn` result when truthy, else a property read on the context
(which may throw when the context itself is `undefined`). -/
def rootValue (getFn : String → Option JSValue) (head : String) (st : ExecState) :
    Except RunErr JSValue :=
  if head == "input" || head == "output" then .ok st.inp
  else if head != "context" && head != "this" then
    let g := (getFn head).getD .undefined
    if jsTruthy g then .ok g else jsMember st.ctx head
  else if head == "this" then .ok st.src
  else .ok st.ctx

/-- The token walk of `resolvePathWithType` (`for (let i = 1; ...)`).  At
each step the source throws `Path not found` when the current value or the
member value is falsy and the token is not the last one; otherwise the walk
moves to the member value (a TypeError when the current value is
`undefined`/`null`).  The callable-binding statements are skipped: callable
values are outside the modelled fragment. -/
def walkPath (step : String) : JSValue → List String → Except RunErr JSValue
  | cur, [] => .ok cur
  | cur, t :: rest =>
    if (!jsTruthy cur || !jsTruthy (jsMemberD cur t)) && !rest.isEmpty then
      .error (.pathNotFound step)
    else do
      let v ← jsMember cur t
      walkPath step v rest

/-- `Container.resolvePathWithType`. -/
def resolvePathWithType (getFn : String → Option JSValue) (step : String)
    (st : ExecState) : Except RunErr Resolved :=
  let tokens := strSplitOn step '.'
  let token := headToken step
  if isNumericToken token then
    .ok (.literal "number" (.num (parseDigits token)))
  else if strStartsWith token "\"" then
    .ok (.literal "string" (.str (stripOuter "\"" token)))
  else if strStartsWith token squote then
    .ok (.literal "string" (.str (stripOuter squote token)))
  else if token == "true" then .ok (.literal "boolean" (.bool true))
  else if token == "false" then .ok (.literal "boolean" (.bool false))
  else do
    let root ← rootValue getFn token st
    let v ← walkPath step root tokens.tail
    .ok (.reference v)

/-- `Container.resolvePath` (`result ? result.value : result`; a resolved
record is always truthy). -/
def resolvePath (getFn : String → Option JSValue) (step : String)
    (st : ExecState) : Except RunErr JSValue :=
  (resolvePathWithType getFn step st).map Resolved.value

/-- `resolvePath` on a possibly-`undefined` step: `undefined.split('.')`
throws a TypeError. -/
def resolvePathO (getFn : String → Option JSValue) (step? : Option String)
    (st : ExecState) : Except RunErr JSValue :=
  match step? with
  | none => .error .typeError
  | some step => resolvePath getFn step st

/-! ### Assignment locations

The source's setters resolve the parent path to a live object and then
mutate it in place.  Functionally, the parent resolution is replayed as a
location (root + key path) and the mutation becomes a nested update at that
location; `resolveLoc` performs exactly the checks `resolvePath` performs on
the same path, so the two renderings agree on the verified programs. -/

inductive PathRoot where
  | ctx
  | inp
  | src
  deriving DecidableEq, Repr

def stReadRoot (st : ExecState) : PathRoot → JSValue
  | .ctx => st.ctx
  | .inp => st.inp
  | .src => st.src

def stWithRoot (st : ExecState) : PathRoot → JSValue → ExecState
  | .ctx, v => { st with ctx := v }
  | .inp, v => { st with inp := v }
  | .src, v => { st with src := v }

/-- Total member-chain read (used where the traversal has already been
validated). -/
def chainD (v : JSValue) (ts : List String) : JSValue := ts.foldl jsMemberD v

/-- Resolve a parent path to an assignable location, mirroring
`resolvePathWithType`'s branches on the same path.  A literal head or a
truthy container lookup would make the source mutate a primitive or a
registered component: the former is a strict-mode TypeError, the latter is
outside the modelled fragment; both are rendered as `typeError` (no verified
program reaches either). -/
def resolveLoc (getFn : String → Option JSValue) (step : String)
    (st : ExecState) : Except RunErr (PathRoot × List String) :=
  let tokens := strSplitOn step '.'
  let token := headToken step
  if literalHead step then .error .typeError
  else do
    let rk ←
      (if token == "input" || token == "output" then
        .ok (PathRoot.inp, ([] : List String))
      else if token != "context" && token != "this" then
        let g := (getFn token).getD .undefined
        if jsTruthy g then .error RunErr.typeError
        else .ok (PathRoot.ctx, [token])
      else if token == "this" then .ok (PathRoot.src, ([] : List String))
      else .ok (PathRoot.ctx, ([] : List String)) :
        Except RunErr (PathRoot × List String))
    let base ← (match rk.2 with
      | [] => pure (stReadRoot st rk.1)
      | k :: _ => jsMember (stReadRoot st rk.1) k)
    let _ ← walkPath step base tokens.tail
    .ok (rk.1, rk.2 ++ tokens.tail)

/-- Nested functional update at a key path: apply `upd` to the object found
at the end of the path.  A non-object at the end (or on the way) is a
property write on a primitive — a strict-mode TypeError (the TS build emits
strict-mode modules). -/
def jsUpdateAt : JSValue → List String → (JSObj → JSObj) → Except RunErr JSValue
  | .obj f, [], upd => .ok (.obj (upd f))
  | _, [], _ => .error .typeError
  | .obj f, k :: ks, upd => do
    let v' ← jsUpdateAt ((f.lookup k).getD .undefined) ks upd
    .ok (.obj (f.set k v'))
  | _, _ :: _, _ => .error .typeError

def dotJoin (tokens : List String) : String := strJoin "." tokens

def lastTok (tokens : List String) : String := tokens.getLastD ""

/-- `Container.setValue`. -/
def setValue (getFn : String → Option JSValue) (path? valuePath? : Option String)
    (st : ExecState) : Except RunErr ExecState := do
  let value ← resolvePathO getFn valuePath? st
  match path? with
  | none => .error .typeError
  | some path =>
    let tokens := strSplitOn path '.'
    let newPath := dotJoin tokens.dropLast
    let loc ← resolveLoc getFn newPath st
    let v' ← jsUpdateAt (stReadRoot st loc.1) loc.2
      (fun f => f.set (lastTok tokens) value)
    .ok (stWithRoot st loc.1 v')

/-- `Container.incValue` (note its `path.startsWith('.')` special case pushes
an extra `'this'` token at the end). -/
def incValue (getFn : String → Option JSValue) (path? valuePath? : Option String)
    (st : ExecState) : Except RunErr ExecState := do
  let value ← resolvePathO getFn valuePath? st
  match path? with
  | none => .error .typeError
  | some path =>
    let tokens0 := strSplitOn path '.'
    let tokens := if strStartsWith path "." then tokens0 ++ ["this"] else tokens0
    let newPath := dotJoin tokens.dropLast
    let loc ← resolveLoc getFn newPath st
    let cur := jsMemberD (chainD (stReadRoot st loc.1) loc.2) (lastTok tokens)
    let v' ← jsUpdateAt (stReadRoot st loc.1) loc.2
      (fun f => f.set (lastTok tokens) (jsAdd cur value))
    .ok (stWithRoot st loc.1 v')

/-- `Container.decValue`. -/
def decValue (getFn : String → Option JSValue) (path? valuePath? : Option String)
    (st : ExecState) : Except RunErr ExecState := do
  let value ← resolvePathO getFn valuePath? st
  match path? with
  | none => .error .typeError
  | some path =>
    let tokens := strSplitOn path '.'
    let newPath := dotJoin tokens.dropLast
    let loc ← resolveLoc getFn newPath st
    let cur := jsMemberD (chainD (stReadRoot st loc.1) loc.2) (lastTok tokens)
    let v' ← jsUpdateAt (stReadRoot st loc.1) loc.2
      (fun f => f.set (lastTok tokens) (jsSub cur value))
    .ok (stWithRoot st loc.1 v')

/-- `Container.deleteValue`. -/
def deleteValue (getFn : String → Option JSValue) (path? : Option String)
    (st : ExecState) : Except RunErr ExecState :=
  match path? with
  | none => .error .typeError
  | some path => do
    let tokens := strSplitOn path '.'
    let newPath := dotJoin tokens.dropLast
    let loc ← resolveLoc getFn newPath st
    let v' ← jsUpdateAt (stReadRoot st loc.1) loc.2
      (fun f => f.remove (lastTok tokens))
    .ok (stWithRoot st loc.1 v')

/-- `Container.getValue` (`srcPath || 'floating'`: the default also applies
to the empty string). -/
def getValue (getFn : String → Option JSValue) (srcPath? : Option String)
    (st : ExecState) : Except RunErr JSValue := do
  let path := match srcPath? with
    | some s => if s == "" then "floating" else s
    | none => "floating"
  let tokens := strSplitOn path '.'
  let newPath := dotJoin tokens.dropLast
  let currentObject ← resolvePath getFn newPath st
  jsMember currentObject (lastTok tokens)

/-- Field write on the context object (always an object in execution; any
other value is returned unchanged). -/
def jsSetField : JSValue → String → JSValue → JSValue
  | .obj f, k, v => .obj (f.set k v)
  | w, _, _ => w

/-- Common body of `eqValue`/`neqValue`/`gtValue`/`geValue`/`ltValue`/
`leValue`: resolve both paths, store the comparison in `context.floating`. -/
def cmpValue (getFn : String → Option JSValue) (op : JSValue → JSValue → Bool)
    (pathA? pathB? : Option String) (st : ExecState) : Except RunErr ExecState := do
  let valueA ← resolvePathO getFn pathA? st
  let valueB ← resolvePathO getFn pathB? st
  .ok { st with ctx := jsSetField st.ctx "floating" (.bool (op valueA valueB)) }

def eqValue (getFn : String → Option JSValue) (pathA? pathB? : Option String)
    (st : ExecState) : Except RunErr ExecState :=
  cmpValue getFn jsStrictEq pathA? pathB? st

def neqValue (getFn : String → Option JSValue) (pathA? pathB? : Option String)
    (st : ExecState) : Except RunErr ExecState :=
  cmpValue getFn (fun a b => !jsStrictEq a b) pathA? pathB? st

def gtValue (getFn : String → Option JSValue) (pathA? pathB? : Option String)
    (st : ExecState) : Except RunErr ExecState :=
  cmpValue getFn jsGt pathA? pathB? st

def geValue (getFn : String → Option JSValue) (pathA? pathB? : Option String)
    (st : ExecState) : Except RunErr ExecState :=
  cmpValue getFn jsGe pathA? pathB? st

def ltValue (getFn : String → Option JSValue) (pathA? pathB? : Option String)
    (st : ExecState) : Except RunErr ExecState :=
  cmpValue getFn jsLt pathA? pathB? st

def leValue (getFn : String → Option JSValue) (pathA? pathB? : Option String)
    (st : ExecState) : Except RunErr ExecState :=
  cmpValue getFn jsLe pathA? pathB? st

/-! ## Interpreter (`DefaultCompiler.findLabels`, `doGoto`, `executeAction`,
`execute`) and `Container.runPipeline`

The pipeline environment `env` is the container's `pipelines` map as an
insertion-ordered association list.  `getPipeline`'s wildcard memoisation
cache is omitted from the execution environment: a consistent cache never
changes a lookup result, so the pure lookup below returns exactly what the
stateful one does (the stateful registration-side functions are modelled
separately further down). -/

def assocLookup {α : Type} : List (String × α) → String → Option α
  | [], _ => none
  | (k, v) :: r, key => if k == key then some v else assocLookup r key

/-- Upsert preserving insertion order (JS string-keyed assignment). -/
def assocSet {α : Type} : List (String × α) → String → α → List (String × α)
  | [], key, v => [(key, v)]
  | (k, w) :: r, key, v =>
    if k == key then (k, v) :: r else (k, w) :: assocSet r key v

/-- Pure rendering of `Container.getPipeline`: strict lookup, then first
wildcard match in insertion order. -/
def getPipelineR (env : List (String × BuiltPipeline)) (tag : String) :
    Option BuiltPipeline :=
  match assocLookup env tag with
  | some p => some p
  | none =>
    match env.find? (fun kv => compareWildcards tag kv.1) with
    | some kv => some kv.2
    | none => none

/-- `DefaultCompiler.findLabels`: record `labels[name] = index` for each
instruction whose first token has type `label`.  An empty instruction or a
missing second token is a TypeError (`current[0].type` / `current[1].value`
on `undefined`); a second token without a `value` stores under the key
`"undefined"` (JS key coercion). -/
def findLabelsGo : List (List Token) → Nat → JSObj → Except RunErr JSObj
  | [], _, labels => .ok labels
  | current :: rest, i, labels =>
    match current.head? with
    | none => .error .typeError
    | some t0 =>
      if t0 = Token.opTok "label" then
        match current.get? 1 with
        | none => .error .typeError
        | some t1 =>
          findLabelsGo rest (i + 1)
            (labels.set ((tokenValue t1).getD "undefined") (.num i))
      else findLabelsGo rest (i + 1) labels

def findLabelsE (compiled : List (List Token)) : Except RunErr JSObj :=
  findLabelsGo compiled 0 .nil

/-- `DefaultCompiler.doGoto`: `context.cursor = context.labels[label]`.  A
label absent from the map yields `undefined` (and hence a `NaN` cursor after
the loop's increment). -/
def doGoto (label? : Option String) (st : ExecState) : Except RunErr ExecState := do
  let labelsVal ← jsMember st.ctx "labels"
  let index ← jsMember labelsVal ((label?).getD "undefined")
  .ok { st with ctx := jsSetField st.ctx "cursor" index }

/-- `DefaultCompiler.executeReference` minus the call step: the verified
value fragment has no callables, so `method` is always the resolved value
itself (or its `run` member) and is returned as is.  The argument paths are
still resolved, in source order, because their resolution can throw. -/
def resolveArgs (getFn : String → Option JSValue) :
    List Token → ExecState → Except RunErr Unit
  | [], _ => .ok ()
  | t :: ts, st =>
    match tokenValue t with
    | none => .error .typeError
    | some v => do
      let _ ← resolvePathWithType getFn v st
      resolveArgs getFn ts st

def executeReference (getFn : String → Option JSValue) (step : List Token)
    (firstToken : Token) (st : ExecState) : Except RunErr (JSValue × ExecState) := do
  let currentObject ← resolvePathO getFn (tokenValue firstToken) st
  let _ ← resolveArgs getFn step.tail st
  if !jsTruthy currentObject then .error .methodNotFound
  else
    let r := jsMemberD currentObject "run"
    let method := if jsTruthy r then r else currentObject
    .ok (method, st)

/-- What `runPipeline` receives: a tag to look up, or a pipeline object
(the `!pipeline.compiler` ad-hoc branch — registering a raw line array under
its JSON string and re-fetching it — compiles the lines with the default
compiler exactly as passing `buildPipeline lines` does, and is not modelled
separately). -/
inductive PipeSrc where
  | tag (s : String)
  | pipe (p : BuiltPipeline)
  deriving DecidableEq, Repr

mutual
/-- `DefaultCompiler.executeAction`.  Returns the instruction's result (the
new `input`) together with the updated state.  `step[k].value` accesses are
guarded exactly where the source guards them. -/
def executeActionF (getFn : String → Option JSValue)
    (env : List (String × BuiltPipeline)) (step : List Token) (st : ExecState)
    (depth fuel : Nat) : Except RunErr (JSValue × ExecState) :=
  match fuel with
  | 0 => .error .outOfFuel
  | fuel + 1 =>
    match step.head? with
    | none => .error .typeError
    | some ft0 =>
      let pfx := match tokenValue ft0 with
        | some v => strStartsWith v "->"
        | none => false
      if pfx && depth > 0 then .ok (st.inp, st)
      else
        let ft := if pfx then tokenWithValue ft0 (strDrop ((tokenValue ft0).getD "") 2)
          else ft0
        match ft with
        | .comment _ => .ok (st.inp, st)
        | .call name =>
          match getPipelineR env name with
          | none => .error (.pipelineNotFound name)
          | some pipeline => do
            let r ← runPipelineF getFn env (.pipe pipeline) st.inp st.src (depth + 1) fuel
            .ok (r.1, { st with src := r.2 })
        | .reference _ => executeReference getFn step ft st
        | .opTok k =>
          match k with
          | "set" =>
            match step.get? 1 with
            | none => .error .typeError
            | some t1 => do
              let st' ← setValue getFn (tokenValue t1) ((step.get? 2).bind tokenValue) st
              .ok (st'.inp, st')
          | "delete" =>
            match step.get? 1 with
            | none => .error .typeError
            | some t1 => do
              let st' ← deleteValue getFn (tokenValue t1) st
              .ok (st'.inp, st')
          | "get" => do
            let v ← getValue getFn ((step.get? 1).bind tokenValue) st
            .ok (v, st)
          | "inc" => do
            let vp := match step.get? 2 with
              | some t2 => tokenValue t2
              | none => some "1"
            let st' ← incValue getFn ((step.get? 1).bind tokenValue) vp st
            .ok (st'.inp, st')
          | "dec" => do
            let vp := match step.get? 2 with
              | some t2 => tokenValue t2
              | none => some "1"
            let st' ← decValue getFn ((step.get? 1).bind tokenValue) vp st
            .ok (st'.inp, st')
          | "eq" => do
            let st' ← eqValue getFn ((step.get? 1).bind tokenValue)
              ((step.get? 2).bind tokenValue) st
            .ok (st'.inp, st')
          | "neq" => do
            let st' ← neqValue getFn ((step.get? 1).bind tokenValue)
              ((step.get? 2).bind tokenValue) st
            .ok (st'.inp, st')
          | "gt" => do
            let st' ← gtValue getFn ((step.get? 1).bind tokenValue)
              ((step.get? 2).bind tokenValue) st
            .ok (st'.inp, st')
          | "ge" => do
            let st' ← geValue getFn ((step.get? 1).bind tokenValue)
              ((step.get? 2).bind tokenValue) st
            .ok (st'.inp, st')
          | "lt" => do
            let st' ← ltValue getFn ((step.get? 1).bind tokenValue)
              ((step.get? 2).bind tokenValue) st
            .ok (st'.inp, st')
          | "le" => do
            let st' ← leValue getFn ((step.get? 1).bind tokenValue)
              ((step.get? 2).bind tokenValue) st
            .ok (st'.inp, st')
          | "goto" =>
            match step.get? 1 with
            | none => .error .typeError
            | some t1 => do
              let st' ← doGoto (tokenValue t1) st
              .ok (st'.inp, st')
          | "jne" => do
            let fl ← jsMember st.ctx "floating"
            if !jsTruthy fl then
              match step.get? 1 with
              | none => .error .typeError
              | some t1 => do
                let st' ← doGoto (tokenValue t1) st
                .ok (st'.inp, st')
            else .ok (st.inp, st)
          | "je" => do
            let fl ← jsMember st.ctx "floating"
            if jsTruthy fl then
              match step.get? 1 with
              | none => .error .typeError
              | some t1 => do
                let st' ← doGoto (tokenValue t1) st
                .ok (st'.inp, st')
            else .ok (st.inp, st)
          | _ => .ok (st.inp, st)
termination_by structural fuel

/-- One iteration of `execute`'s `while` loop: test the loop condition
(`context.cursor < compiled.length`, false for a `NaN`/`undefined` cursor),
run the instruction under the cursor, store its result as the new input, and
increment the cursor (`undefined + 1` is `NaN`).  Returns `none` when the
condition fails. -/
def execStepF (getFn : String → Option JSValue)
    (env : List (String × BuiltPipeline)) (compiled : List (List Token))
    (st : ExecState) (depth fuel : Nat) : Except RunErr (Option ExecState) :=
  match fuel with
  | 0 => .error .outOfFuel
  | fuel + 1 =>
    let cursor := jsMemberD st.ctx "cursor"
    if jsLt cursor (.num compiled.length) then
      let step? := match cursor with
        | .num n => if 0 ≤ n then compiled.get? n.toNat else none
        | _ => none
      match step? with
      | none => .error .typeError
      | some instr =>
        match executeActionF getFn env instr st depth fuel with
        | .error e => .error e
        | .ok (v, st') =>
          let cursor2 := jsMemberD st'.ctx "cursor"
          .ok (some ⟨jsSetField st'.ctx "cursor" (jsAdd cursor2 (.num 1)), v, st'.src⟩)
    else .ok none
termination_by structural fuel

def execLoopF (getFn : String → Option JSValue)
    (env : List (String × BuiltPipeline)) (compiled : List (List Token))
    (st : ExecState) (depth fuel : Nat) : Except RunErr (JSValue × JSValue) :=
  match fuel with
  | 0 => .error .outOfFuel
  | fuel + 1 =>
    match execStepF getFn env compiled st depth fuel with
    | .error e => .error e
    | .ok none => .ok (st.inp, st.src)
    | .ok (some st') => execLoopF getFn env compiled st' depth fuel
termination_by structural fuel

/-- `DefaultCompiler.execute`: fresh context `{cursor: 0, labels: {}}`,
label pre-pass, then the loop.  The result is the final `input` (paired with
the final `srcObject`, whose mutations a JS caller observes through
sharing). -/
def executeF (getFn : String → Option JSValue)
    (env : List (String × BuiltPipeline)) (compiled : List (List Token))
    (inp so : JSValue) (depth fuel : Nat) : Except RunErr (JSValue × JSValue) :=
  match fuel with
  | 0 => .error .outOfFuel
  | fuel + 1 =>
    match findLabelsE compiled with
    | .error e => .error e
    | .ok labels =>
      let ctx0 := JSValue.obj (.cons "cursor" (.num 0) (.cons "labels" (.obj labels) .nil))
      execLoopF getFn env compiled ⟨ctx0, inp, so⟩ depth fuel
termination_by structural fuel

/-- `Container.runPipeline`: the depth guard, then tag resolution, then
dispatch to the (default) compiler's `execute`. -/
def runPipelineF (getFn : String → Option JSValue)
    (env : List (String × BuiltPipeline)) (src : PipeSrc) (inp so : JSValue)
    (depth fuel : Nat) : Except RunErr (JSValue × JSValue) :=
  match fuel with
  | 0 => .error .outOfFuel
  | fuel + 1 =>
    if depth > 10 then .error .depthExceeded
    else
      match src with
      | .tag s =>
        match getPipelineR env s with
        | none => .error (.pipelineNotFound s)
        | some p => executeF getFn env p.compiled inp so depth fuel
      | .pipe p => executeF getFn env p.compiled inp so depth fuel
termination_by structural fuel
end

/-- The empty container lookup used by the concrete interpreter theorems
(the verified pipelines resolve no path through a registered component; the
default container's only factory entry is the logger, which no verified path
names). -/
def emptyGet : String → Option JSValue := fun _ => none

/-- Cursor value of a state. -/
def cursorVal (st : ExecState) : JSValue := jsMemberD st.ctx "cursor"

/-- Cursor values observed at each evaluation of the loop condition.  Built
from the same `execStepF` the loop itself runs, so it reflects exactly the
executed iterations. -/
def loopTrace (getFn : String → Option JSValue)
    (env : List (String × BuiltPipeline)) (compiled : List (List Token))
    (st : ExecState) (depth fuel : Nat) : List JSValue :=
  match fuel with
  | 0 => []
  | fuel + 1 =>
    cursorVal st ::
      (match execStepF getFn env compiled st depth fuel with
        | .ok (some st') => loopTrace getFn env compiled st' depth fuel
        | _ => [])

def executeTrace (getFn : String → Option JSValue)
    (env : List (String × BuiltPipeline)) (compiled : List (List Token))
    (inp so : JSValue) (depth fuel : Nat) : List JSValue :=
  match fuel with
  | 0 => []
  | fuel + 1 =>
    match findLabelsE compiled with
    | .error _ => []
    | .ok labels =>
      let ctx0 := JSValue.obj (.cons "cursor" (.num 0) (.cons "labels" (.obj labels) .nil))
      loopTrace getFn env compiled ⟨ctx0, inp, so⟩ depth fuel

/-! ## Registry (`Container.register`, `Container.get`,
`Container.getBestKey`)

Object identity of registered instances matters for the singleton claims, so
instances live in an explicit heap of numbered cells; `get` returns the cell
number (two results are "the identical object" exactly when the numbers are
equal).  `applySettings` is user code whose body the container does not
interpret; the model records each invocation (with both arguments the source
passes) in the instance's `applyLog`.  The parent chain of containers is
linear, so a container is rendered as the non-empty list of its own frame
followed by its ancestors' frames. -/

/-- A registered live instance: whether it exposes `applySettings`, the log
of `applySettings(instance.settings, settings)` invocations, and its
`settings` member. -/
structure Instance where
  hasApplySettings : Bool
  applyLog : List (JSValue × JSValue)
  settings : JSValue
  deriving DecidableEq, Repr

/-- The `instance` member of a factory item: a heap reference (singleton) or
a stored constructor, modelled by the instance template the constructor
produces. -/
inductive InstVal where
  | ref (r : Nat)
  | clazz (template : Instance)
  deriving DecidableEq, Repr

structure FactoryItem where
  name : String
  isSingleton : Bool
  inst : InstVal
  deriving DecidableEq, Repr

/-- One container's own registry state: the factory map (insertion ordered)
and the `cache.bestKeys` memo (`none` records a cached miss, the source's
`null`). -/
structure RegFrame where
  factory : List (String × FactoryItem)
  bestKeys : List (String × Option String)
  deriving DecidableEq, Repr

abbrev Heap := List (Nat × Instance)

def heapLookup : Heap → Nat → Option Instance
  | [], _ => none
  | (k, v) :: r, key => if k == key then some v else heapLookup r key

def heapSet : Heap → Nat → Instance → Heap
  | [], key, v => [(key, v)]
  | (k, w) :: r, key, v =>
    if k == key then (k, v) :: r else (k, w) :: heapSet r key v

def freshRef (h : Heap) : Nat := h.foldl (fun m kv => max m (kv.1 + 1)) 0

/-- `Container.getBestKey`: answer from the memo when present (misses are
memoised as `null`), otherwise scan the factory keys in insertion order for
the first wildcard match, memoising the outcome either way. -/
def getBestKey (fr : RegFrame) (name : String) : Option String × RegFrame :=
  match assocLookup fr.bestKeys name with
  | some v => (v, fr)
  | none =>
    match fr.factory.find? (fun kv => compareWildcards name kv.1) with
    | some kv =>
      (some kv.1, { fr with bestKeys := assocSet fr.bestKeys name (some kv.1) })
    | none => (none, { fr with bestKeys := assocSet fr.bestKeys name none })

/-- The item-handling tail of `Container.get`: the singleton branch calls
`applySettings(item.instance.settings, settings)` when the instance exposes
it (even for an absent `settings` argument) and returns the instance; the
non-singleton branch runs `new Clazz(settings, this)`, modelled as a fresh
heap cell holding the class template initialised with the given settings.
The two `none` legs are the states `register` never produces: a class stored
as a singleton instance, and the source's dead `Clazz.constructor` path for
a non-singleton non-function (spec section 9 flags it as dead code). -/
def getFromItem (item : FactoryItem) (heap : Heap) (settings : JSValue) :
    Option Nat × Heap :=
  if item.isSingleton then
    match item.inst with
    | .ref r =>
      match heapLookup heap r with
      | some inst =>
        if inst.hasApplySettings then
          (some r, heapSet heap r
            { inst with applyLog := inst.applyLog ++ [(inst.settings, settings)] })
        else (some r, heap)
      | none => (some r, heap)
    | .clazz _ => (none, heap)
  else
    match item.inst with
    | .clazz template =>
      let r := freshRef heap
      (some r, heap ++ [(r, { template with applyLog := [], settings := settings })])
    | .ref _ => (none, heap)

/-- `Container.get` on the container's frame chain: strict lookup in the own
factory; on a miss, delegate to the parent when one exists (returning the
parent's answer outright); only a parentless container falls back to the
wildcard lookup.  `if (key)` also rejects an empty-string best key (JS
truthiness). -/
def regGet : List RegFrame → Heap → String → JSValue →
    Option Nat × List RegFrame × Heap
  | [], heap, _, _ => (none, [], heap)
  | fr :: rest, heap, name, settings =>
    match assocLookup fr.factory name with
    | some item =>
      let rh := getFromItem item heap settings
      (rh.1, fr :: rest, rh.2)
    | none =>
      match rest with
      | _ :: _ =>
        let rrh := regGet rest heap name settings
        (rrh.1, fr :: rrh.2.1, rrh.2.2)
      | [] =>
        let kf := getBestKey fr name
        match kf.1 with
        | some key =>
          if key != "" then
            match assocLookup fr.factory key with
            | some item =>
              let rh := getFromItem item heap settings
              (rh.1, [kf.2], rh.2)
            | none => (none, [kf.2], heap)
          else (none, [kf.2], heap)
        | none => (none, [kf.2], heap)

/-- What `Container.register` receives: a constructor (modelled by the
instance template it produces) or an already-constructed object (a heap
reference). -/
inductive RegVal where
  | ctor (template : Instance)
  | objRef (r : Nat)
  deriving DecidableEq, Repr

/-- `Container.register` on the container's own frame: clear
`cache.bestKeys`, then install the factory item — a singleton constructor is
constructed now (fresh heap cell), a singleton object is stored as is, a
non-singleton constructor is remembered.  The non-singleton non-function leg
is the dead `Clazz.constructor` path, stored as an inert empty class. -/
def register (fr : RegFrame) (heap : Heap) (name : String) (v : RegVal)
    (isSingleton : Bool := true) : RegFrame × Heap :=
  let fr := { fr with bestKeys := [] }
  match v, isSingleton with
  | .ctor template, true =>
    let r := freshRef heap
    ({ fr with factory := assocSet fr.factory name ⟨name, true, .ref r⟩ },
      heap ++ [(r, template)])
  | .objRef r, true =>
    ({ fr with factory := assocSet fr.factory name ⟨name, true, .ref r⟩ }, heap)
  | .ctor template, false =>
    ({ fr with factory := assocSet fr.factory name ⟨name, false, .clazz template⟩ },
      heap)
  | .objRef _, false =>
    ({ fr with factory :=
        assocSet fr.factory name ⟨name, false, .clazz ⟨false, [], .undefined⟩⟩ },
      heap)

/-! ## Pipeline and configuration registration (`Container.registerPipeline`,
`Container.getPipeline`, `Container.registerConfiguration`) -/

/-- The container state these operations touch: the pipelines map, the
configurations map, and both caches (`cache.pipelines` misses are memoised
as `null`; `cache.bestKeys` belongs to the registry and is untouched by the
pipeline/configuration operations). -/
structure ContainerP where
  pipelines : List (String × BuiltPipeline)
  configurations : List (String × JSValue)
  cachePipelines : List (String × Option BuiltPipeline)
  cacheBestKeys : List (String × Option String)
  deriving DecidableEq, Repr

/-- `Container.getPipeline`: strict lookup, then the memo (a memoised miss
answers `undefined`), then the wildcard scan in insertion order, memoising
hit or miss. -/
def getPipelineSt (c : ContainerP) (tag : String) :
    Option BuiltPipeline × ContainerP :=
  match assocLookup c.pipelines tag with
  | some p => (some p, c)
  | none =>
    match assocLookup c.cachePipelines tag with
    | some v => (v, c)
    | none =>
      match c.pipelines.find? (fun kv => compareWildcards tag kv.1) with
      | some kv =>
        (some kv.2, { c with cachePipelines := assocSet c.cachePipelines tag (some kv.2) })
      | none =>
        (none, { c with cachePipelines := assocSet c.cachePipelines tag none })

/-- `Container.registerPipeline`: when overwriting (or the tag is new),
clear `cache.pipelines`, fetch the previous pipeline, and store the build of
the new lines against the previous pipeline's (post-expansion) lines;
otherwise do nothing at all. -/
def registerPipeline (c : ContainerP) (tag : String) (pipeline : List String)
    (overwrite : Bool := true) : ContainerP :=
  if overwrite || (assocLookup c.pipelines tag).isNone then
    let c1 : ContainerP := { c with cachePipelines := [] }
    let pr := getPipelineSt c1 tag
    let prevLines := match pr.1 with
      | some p => p.pipeline
      | none => []
    { pr.2 with pipelines := assocSet pr.2.pipelines tag (buildPipeline pipeline prevLines) }
  else c

/-- `Container.registerConfiguration` (`!this.configurations[tag]` is JS
truthiness on the stored configuration; configurations are opaque mappings,
hence truthy objects, in the spec's data model). -/
def registerConfiguration (c : ContainerP) (tag : String)
    (configuration : JSValue) (overwrite : Bool := true) : ContainerP :=
  if overwrite || !(jsTruthy ((assocLookup c.configurations tag).getD .undefined)) then
    { c with configurations := assocSet c.configurations tag configuration }
  else c

/-! ## JSON round trip (`Container.toJSON`, `Container.fromJSON`)

The instances fed to `toJSON` are modelled as a constructor name plus their
own enumerable fields; the modelled classes define neither a custom `toJSON`
nor a custom `fromJSON` hook (the source then takes the shallow-copy /
`Object.assign` branches), and a constructor is modelled by the fields it
initialises (`new Clazz(settings)` is class-specific user code). -/

structure JSInstance where
  ofClass : String
  fields : JSObj
  deriving DecidableEq, Repr

structure ClassDef where
  ctorFields : JSObj
  deriving DecidableEq, Repr

/-- `Container.toJSON`: shallow copy of the instance, then
`result.className = instance.constructor.name`. -/
def toJSON (x : JSInstance) : JSObj :=
  x.fields.set "className" (.str x.ofClass)

/-- `Container.fromJSON`: look the `className` up in `classes`; when found,
construct and `Object.assign` the serialised fields over the constructed
ones; when not found, shallow-copy the object (a plain object, constructor
name `Object`).  Either way `delete instance.className`.  (A non-string
`className` would be looked up through JS key coercion; `toJSON` always
stores a string, and no modelled class is keyed by a coerced name.) -/
def fromJSON (classes : List (String × ClassDef)) (o : JSObj) : JSInstance :=
  let cls? := match o.lookup "className" with
    | some (.str s) => (assocLookup classes s).map (fun cd => (s, cd))
    | _ => none
  match cls? with
  | some (s, cd) =>
    { ofClass := s, fields := (cd.ctorFields.assign o).remove "className" }
  | none => { ofClass := "Object", fields := o.remove "className" }

/-! ## Generic unfolding lemmas for the fuelled interpreter -/

theorem execLoopF_cons {getFn : String → Option JSValue}
    {env : List (String × BuiltPipeline)} {compiled : List (List Token)}
    {st st' : ExecState} {depth fuel : Nat}
    (h : execStepF getFn env compiled st depth fuel = .ok (some st')) :
    execLoopF getFn env compiled st depth (fuel + 1)
      = execLoopF getFn env compiled st' depth fuel := by
  simp only [execLoopF, h]

theorem execLoopF_exit {getFn : String → Option JSValue}
    {env : List (String × BuiltPipeline)} {compiled : List (List Token)}
    {st : ExecState} {depth fuel : Nat}
    (h : execStepF getFn env compiled st depth fuel = .ok none) :
    execLoopF getFn env compiled st depth (fuel + 1) = .ok (st.inp, st.src) := by
  simp only [execLoopF, h]

theorem executeF_start {getFn : String → Option JSValue}
    {env : List (String × BuiltPipeline)} {compiled : List (List Token)}
    {inp so : JSValue} {depth fuel : Nat} {L : JSObj}
    (h : findLabelsE compiled = .ok L) :
    executeF getFn env compiled inp so depth (fuel + 1)
      = execLoopF getFn env compiled
          ⟨.obj (.cons "cursor" (.num 0) (.cons "labels" (.obj L) .nil)), inp, so⟩
          depth fuel := by
  simp only [executeF, h]

theorem runPipelineF_pipe_le {getFn : String → Option JSValue}
    {env : List (String × BuiltPipeline)} {p : BuiltPipeline} {inp so : JSValue}
    {depth fuel : Nat} (h : depth ≤ 10) :
    runPipelineF getFn env (.pipe p) inp so depth (fuel + 1)
      = executeF getFn env p.compiled inp so depth fuel := by
  simp only [runPipelineF, if_neg (Nat.not_lt.mpr h)]

/-! ## Claim C1: the six-line counter pipeline -/

def counterLines : List String :=
  ["set input.count 0", "label loop", "inc input.count", "lt input.count 3",
   "je loop", "get input"]

def counterProg : List (List Token) :=
  [[.opTok "set", .reference "input.count", .reference "0"],
   [.opTok "label", .reference "loop"],
   [.opTok "inc", .reference "input.count"],
   [.opTok "lt", .reference "input.count", .reference "3"],
   [.opTok "je", .reference "loop"],
   [.opTok "get", .reference "input"]]

/-- Context of the counter run: cursor, the label map `{loop: 1}`, and the
`floating` slot once a comparison has written it. -/
def c1ctx (cursor : Int) (fl : Option Bool) : JSValue :=
  .obj (.cons "cursor" (.num cursor)
    (.cons "labels" (.obj (.cons "loop" (.num 1) .nil))
      (match fl with
        | none => .nil
        | some b => .cons "floating" (.bool b) .nil)))

/-- Execution state of the counter run. -/
def c1st (cursor : Int) (fl : Option Bool) (count : Option Int) : ExecState :=
  ⟨c1ctx cursor fl,
   (match count with
     | none => .obj .nil
     | some n => .obj (.cons "count" (.num n) .nil)),
   .undefined⟩

/-- Claim C1 (code bug).  The six-line counter pipeline, compiled by the
default compiler and run on the input `{}`, terminates — but returns
`undefined`, not `{count: 3}`.  The loop itself works: the second conjunct
shows the state that reaches the final `get input` instruction carries the
input `{count: 3}`, and that executing `get input` replaces it with
`undefined` — `getValue` splits the last path token off and reads the
property `input` of the execution context (`resolvePath("")` resolves to the
context), which is absent. -/
theorem c1_counter_pipeline_returns_undefined :
    runPipelineF emptyGet [] (.pipe (buildPipeline counterLines []))
        (.obj .nil) .undefined 0 16
      = .ok (.undefined, .undefined)
    ∧ (c1st 5 (some false) (some 3)).inp
        = .obj (.cons "count" (.num 3) .nil)
    ∧ execStepF emptyGet [] counterProg (c1st 5 (some false) (some 3)) 0 2
      = .ok (some ⟨c1ctx 6 (some false), .undefined, .undefined⟩) := by
  refine ⟨?_, by decide, by decide⟩
  have hcomp : (buildPipeline counterLines []).compiled = counterProg := by decide
  have hlab : findLabelsE counterProg = .ok (.cons "loop" (.num 1) .nil) := by decide
  have h0 : execStepF emptyGet [] counterProg (c1st 0 none none) 0 13
      = .ok (some (c1st 1 none (some 0))) := by decide
  have h1 : execStepF emptyGet [] counterProg (c1st 1 none (some 0)) 0 12
      = .ok (some (c1st 2 none (some 0))) := by decide
  have h2 : execStepF emptyGet [] counterProg (c1st 2 none (some 0)) 0 11
      = .ok (some (c1st 3 none (some 1))) := by decide
  have h3 : execStepF emptyGet [] counterProg (c1st 3 none (some 1)) 0 10
      = .ok (some (c1st 4 (some true) (some 1))) := by decide
  have h4 : execStepF emptyGet [] counterProg (c1st 4 (some true) (some 1)) 0 9
      = .ok (some (c1st 2 (some true) (some 1))) := by decide
  have h5 : execStepF emptyGet [] counterProg (c1st 2 (some true) (some 1)) 0 8
      = .ok (some (c1st 3 (some true) (some 2))) := by decide
  have h6 : execStepF emptyGet [] counterProg (c1st 3 (some true) (some 2)) 0 7
      = .ok (some (c1st 4 (some true) (some 2))) := by decide
  have h7 : execStepF emptyGet [] counterProg (c1st 4 (some true) (some 2)) 0 6
      = .ok (some (c1st 2 (some true) (some 2))) := by decide
  have h8 : execStepF emptyGet [] counterProg (c1st 2 (some true) (some 2)) 0 5
      = .ok (some (c1st 3 (some true) (some 3))) := by decide
  have h9 : execStepF emptyGet [] counterProg (c1st 3 (some true) (some 3)) 0 4
      = .ok (some (c1st 4 (some false) (some 3))) := by decide
  have h10 : execStepF emptyGet [] counterProg (c1st 4 (some false) (some 3)) 0 3
      = .ok (some (c1st 5 (some false) (some 3))) := by decide
  have h11 : execStepF emptyGet [] counterProg (c1st 5 (some false) (some 3)) 0 2
      = .ok (some ⟨c1ctx 6 (some false), .undefined, .undefined⟩) := by decide
  have l12 : execLoopF emptyGet [] counterProg
      ⟨c1ctx 6 (some false), .undefined, .undefined⟩ 0 2
      = .ok (.undefined, .undefined) := by decide
  have l11 := (execLoopF_cons h11).trans l12
  have l10 := (execLoopF_cons h10).trans l11
  have l9 := (execLoopF_cons h9).trans l10
  have l8 := (execLoopF_cons h8).trans l9
  have l7 := (execLoopF_cons h7).trans l8
  have l6 := (execLoopF_cons h6).trans l7
  have l5 := (execLoopF_cons h5).trans l6
  have l4 := (execLoopF_cons h4).trans l5
  have l3 := (execLoopF_cons h3).trans l4
  have l2 := (execLoopF_cons h2).trans l3
  have l1 := (execLoopF_cons h1).trans l2
  have l0 : execLoopF emptyGet [] counterProg (c1st 0 none none) 0 14
      = .ok (.undefined, .undefined) := (execLoopF_cons h0).trans l1
  calc runPipelineF emptyGet [] (.pipe (buildPipeline counterLines []))
        (.obj .nil) .undefined 0 16
      = executeF emptyGet [] (buildPipeline counterLines []).compiled
          (.obj .nil) .undefined 0 15 := runPipelineF_pipe_le (by omega)
    _ = executeF emptyGet [] counterProg (.obj .nil) .undefined 0 15 := by rw [hcomp]
    _ = execLoopF emptyGet [] counterProg (c1st 0 none none) 0 14 :=
        executeF_start hlab
    _ = .ok (.undefined, .undefined) := l0

/-! ## Claim C2: the recursion depth guard -/

/-- A registered pipeline whose body unconditionally calls itself. -/
def selfCallEnv : List (String × BuiltPipeline) := [("self", buildPipeline ["$self"] [])]

/-- Claim C2.  (a) For every container lookup, pipeline environment, pipeline
source, input, source object and fuel, `runPipeline` at depth strictly
greater than 10 throws `PipelineDepthExceeded` unconditionally — before any
lookup or instruction runs.  (b) The self-calling pipeline `["$self"]` throws
`PipelineDepthExceeded` from every start depth up to 11: the eleven stack
levels at depths 0–10 each pass the guard, and the twelfth invocation (depth
11) raises the error, which unwinds through all eleven levels.  (c) At depth
at most 10 the guard does not fire: the invocation proceeds directly to the
compiled program's execution (so any error it surfaces arises there, not from
the guard). -/
theorem c2_depth_guard :
    (∀ (getFn : String → Option JSValue) (env : List (String × BuiltPipeline))
      (src : PipeSrc) (inp so : JSValue) (depth fuel : Nat),
      10 < depth →
      runPipelineF getFn env src inp so depth (fuel + 1) = .error .depthExceeded)
    ∧ (∀ depth < 12,
      runPipelineF emptyGet selfCallEnv (.tag "self") (.obj .nil) .undefined depth 100
        = .error .depthExceeded)
    ∧ (∀ (getFn : String → Option JSValue) (env : List (String × BuiltPipeline))
      (p : BuiltPipeline) (inp so : JSValue) (depth fuel : Nat),
      depth ≤ 10 →
      runPipelineF getFn env (.pipe p) inp so depth (fuel + 1)
        = executeF getFn env p.compiled inp so depth fuel) := by
  refine ⟨?_, by decide, ?_⟩
  · intro getFn env src inp so depth fuel h
    simp only [runPipelineF, if_pos h]
  · intro getFn env p inp so depth fuel h
    exact runPipelineF_pipe_le h

theorem c2_depth_guard_witness :
    runPipelineF emptyGet [] (.pipe (buildPipeline ["get"] [])) (.obj .nil) .undefined 11 50
      = .error .depthExceeded
    ∧ runPipelineF emptyGet selfCallEnv (.tag "self") (.obj .nil) .undefined 0 100
      = .error .depthExceeded
    ∧ runPipelineF emptyGet [] (.pipe (buildPipeline ["get"] [])) (.obj .nil) .undefined 10 50
      = executeF emptyGet [] (buildPipeline ["get"] []).compiled (.obj .nil) .undefined 10 49 :=
  ⟨c2_depth_guard.1 emptyGet [] _ _ _ 11 49 (by omega),
   c2_depth_guard.2.1 0 (by omega),
   c2_depth_guard.2.2 emptyGet [] _ _ _ 10 49 (by omega)⟩

/-! ## Claim C9: empty source lines -/

/-- Claim C9 (code bug).  An empty (or whitespace-only) line does not become
an empty instruction vector: JS `''.split(' ')` is `['']`, so the compiler
emits one `Reference("")` token for it.  Nor is executing an instruction a
no-op in either reading: a genuinely empty vector throws a TypeError
(`step[0].type` on `undefined`), and the one-token instruction the compiler
actually emits resolves the empty path to the execution context and returns
the context object as the pipeline's new `input` (fourth conjunct: the
result value is the context object, not the `{}` input). -/
theorem c9_empty_line_not_noop :
    compile [""] = [[Token.reference ""]]
    ∧ compile [""] ≠ [[]]
    ∧ executeActionF emptyGet [] [] ⟨.obj .nil, .obj .nil, .undefined⟩ 0 50
      = .error .typeError
    ∧ executeActionF emptyGet [] [Token.reference ""]
        ⟨.obj (.cons "cursor" (.num 0) (.cons "labels" (.obj .nil) .nil)),
         .obj .nil, .undefined⟩ 0 50
      = .ok (.obj (.cons "cursor" (.num 0) (.cons "labels" (.obj .nil) .nil)),
             ⟨.obj (.cons "cursor" (.num 0) (.cons "labels" (.obj .nil) .nil)),
              .obj .nil, .undefined⟩) :=
  ⟨by decide, by decide, by decide, by decide⟩

/-! ## Claim C6: the cursor range invariant -/

/-- Is a cursor value a number in `[0, len]`? -/
def cursorInRangeB (len : Nat) (v : JSValue) : Bool :=
  match v with
  | .num n => decide (0 ≤ n ∧ n ≤ (len : Int))
  | _ => false

/-- Claim C6 counterexample: a `goto` whose label the `findLabels` prescan
did not record drives the cursor out of `[0, len(compiled)]` — `doGoto` sets
it to `undefined` and the loop's increment turns that into `NaN`, so the
second loop-condition check observes a cursor outside the range (and the
loop then halts). -/
theorem c6_missing_label_escapes :
    executeTrace emptyGet [] (compile ["goto missing"]) (.obj .nil) .undefined 0 10
      = [.num 0, .nan]
    ∧ (executeTrace emptyGet [] (compile ["goto missing"]) (.obj .nil) .undefined 0 10).all
        (cursorInRangeB (compile ["goto missing"]).length) = false :=
  ⟨by decide, by decide⟩

/-! ## Claim C5: `$super` expansion -/

theorem keepPrevLines_eq (prev : List String) :
    keepPrevLines prev = prev.filter (fun l => !(strStartsWith (strTrim l) "->")) := by
  induction prev with
  | nil => rfl
  | cons l ls ih =>
    cases h : strStartsWith (strTrim l) "->" <;>
      simp [keepPrevLines, List.filter_cons, h, ih]

theorem assocLookup_set_self {α : Type} (l : List (String × α)) (k : String) (v : α) :
    assocLookup (assocSet l k v) k = some v := by
  induction l with
  | nil => simp [assocSet, assocLookup]
  | cons kv r ih =>
    by_cases h : kv.1 == k <;> simp [assocSet, assocLookup, h, ih]

/-- Claim C5.  (a) `buildPipeline` maps each source line whose trimmed value
is exactly `$super` to the previous pipeline's lines minus those whose
trimmed value begins with `->`, keeping every other source line unchanged in
order.  (b) `registerPipeline` with overwrite on an already-registered tag
stores the build of the new lines against the existing pipeline's lines as
`prevPipeline`. -/
theorem c5_super_expansion :
    (∀ (src prev : List String),
      (buildPipeline src prev).pipeline
        = src.flatMap (fun line =>
            if strTrim line == "$super"
            then prev.filter (fun l => !(strStartsWith (strTrim l) "->"))
            else [line]))
    ∧ (∀ (c : ContainerP) (tag : String) (lines : List String)
        (prevBuilt : BuiltPipeline),
      assocLookup c.pipelines tag = some prevBuilt →
      assocLookup (registerPipeline c tag lines true).pipelines tag
        = some (buildPipeline lines prevBuilt.pipeline)) := by
  constructor
  · intro src prev
    show buildLines src prev = _
    induction src with
    | nil => rfl
    | cons line rest ih =>
      by_cases h : strTrim line = "$super" <;>
        simp [buildLines, h, ih, keepPrevLines_eq]
  · intro c tag lines prevBuilt h
    simp [registerPipeline, getPipelineSt, h, assocLookup_set_self]

theorem c5_super_expansion_witness :
    (buildPipeline ["$super", "get input"] ["-> trace", "set input.x 1"]).pipeline
      = ["set input.x 1", "get input"]
    ∧ assocLookup (registerPipeline
          ⟨[("p", buildPipeline ["get"] [])], [], [], []⟩ "p" ["$super"] true).pipelines "p"
      = some (buildPipeline ["$super"] (buildPipeline ["get"] []).pipeline) :=
  ⟨(c5_super_expansion.1 ["$super", "get input"] ["-> trace", "set input.x 1"]).trans
      (by decide),
   c5_super_expansion.2 ⟨[("p", buildPipeline ["get"] [])], [], [], []⟩ "p" ["$super"]
      (buildPipeline ["get"] []) (by decide)⟩

/-! ## Claim C8: duplicate registration with `overwrite = false` -/

/-- Claim C8.  On a tag that is already present, `registerPipeline` and
`registerConfiguration` called with `overwrite = false` return the container
state unchanged — pipelines map, configurations map and both caches — and
throw nothing (both functions are total).  The configuration hypothesis
`jsTruthy v` reflects the data model: configurations are opaque mappings,
hence truthy objects (the source tests presence with JS truthiness). -/
theorem c8_register_noop :
    (∀ (c : ContainerP) (tag : String) (lines : List String) (p : BuiltPipeline),
      assocLookup c.pipelines tag = some p →
      registerPipeline c tag lines false = c)
    ∧ (∀ (c : ContainerP) (tag : String) (cfg v : JSValue),
      assocLookup c.configurations tag = some v → jsTruthy v = true →
      registerConfiguration c tag cfg false = c) := by
  constructor
  · intro c tag lines p h
    simp [registerPipeline, h]
  · intro c tag cfg v h ht
    simp [registerConfiguration, h, ht]

theorem c8_register_noop_witness :
    registerPipeline ⟨[("p", buildPipeline ["get"] [])], [("cfg", .obj .nil)], [], []⟩
        "p" ["set input.x 1"] false
      = ⟨[("p", buildPipeline ["get"] [])], [("cfg", .obj .nil)], [], []⟩
    ∧ registerConfiguration
        ⟨[("p", buildPipeline ["get"] [])], [("cfg", .obj .nil)], [], []⟩
        "cfg" (.num 5) false
      = ⟨[("p", buildPipeline ["get"] [])], [("cfg", .obj .nil)], [], []⟩ :=
  ⟨c8_register_noop.1 _ "p" ["set input.x 1"] (buildPipeline ["get"] []) (by decide),
   c8_register_noop.2 _ "cfg" (.num 5) (.obj .nil) (by decide) (by decide)⟩

/-! ## Claim C3: lookup chain of `get` -/

/-- Claim C3 counterexample.  A container that registered `token-xx` but has
a parent: `token-xx` matches the lookup name `token-*` as a glob (first
conjunct), and a parentless container with the same factory does resolve the
lookup through the wildcard fallback (second conjunct) — but with a parent
present, `get` returns the parent's (absent) answer outright and never
consults its own wildcard keys (third conjunct).  This refutes the claimed
order "strict, then parent, then wildcard": after an absent parent answer no
wildcard resolution happens. -/
theorem c3_parent_shadows_wildcard :
    compareWildcards "token-*" "token-xx" = true
    ∧ (regGet [⟨[("token-xx", ⟨"token-xx", true, .ref 0⟩)], []⟩]
        [(0, ⟨false, [], .undefined⟩)] "token-*" .undefined).1 = some 0
    ∧ (regGet [⟨[("token-xx", ⟨"token-xx", true, .ref 0⟩)], []⟩, ⟨[], []⟩]
        [(0, ⟨false, [], .undefined⟩)] "token-*" .undefined).1 = none :=
  ⟨by decide, by decide, by decide⟩

/-- Claim C3, amended.  `get(name, settings?)` first performs a strict lookup
in the container's own factory map (a); if that is absent and a parent
exists, it returns the parent chain's result outright — the container's own
wildcard keys are not consulted (b); only when there is no parent does it
resolve via wildcard matching (c,e), where `getBestKey` returns the first
registered factory key in insertion order that matches `name` as a glob,
memoising both hits and misses in `cache.bestKeys` (d); if no key matches,
`get` returns absent (c). -/
theorem c3_lookup_chain :
    (∀ (fr : RegFrame) (rest : List RegFrame) (heap : Heap) (name : String)
      (s : JSValue) (item : FactoryItem),
      assocLookup fr.factory name = some item →
      regGet (fr :: rest) heap name s
        = ((getFromItem item heap s).1, fr :: rest, (getFromItem item heap s).2))
    ∧ (∀ (fr fr2 : RegFrame) (rest : List RegFrame) (heap : Heap) (name : String)
      (s : JSValue),
      assocLookup fr.factory name = none →
      regGet (fr :: fr2 :: rest) heap name s
        = ((regGet (fr2 :: rest) heap name s).1,
           fr :: (regGet (fr2 :: rest) heap name s).2.1,
           (regGet (fr2 :: rest) heap name s).2.2))
    ∧ (∀ (fr : RegFrame) (heap : Heap) (name : String) (s : JSValue),
      assocLookup fr.factory name = none →
      (getBestKey fr name).1 = none →
      (regGet [fr] heap name s).1 = none)
    ∧ (∀ (fr : RegFrame) (name : String),
      assocLookup fr.bestKeys name = none →
      (getBestKey fr name).1
          = (fr.factory.find? (fun kv => compareWildcards name kv.1)).map (fun kv => kv.1)
        ∧ (getBestKey fr name).2.bestKeys
          = assocSet fr.bestKeys name (getBestKey fr name).1)
    ∧ (∀ (fr : RegFrame) (name : String) (v : Option String),
      assocLookup fr.bestKeys name = some v → getBestKey fr name = (v, fr))
    ∧ (∀ (fr : RegFrame) (heap : Heap) (name key : String) (s : JSValue)
      (item : FactoryItem),
      assocLookup fr.factory name = none →
      (getBestKey fr name).1 = some key → key ≠ "" →
      assocLookup fr.factory key = some item →
      (regGet [fr] heap name s).1 = (getFromItem item heap s).1) := by
  refine ⟨?_, ?_, ?_, ?_, ?_, ?_⟩
  · intro fr rest heap name s item h
    cases rest <;> simp [regGet, h]
  · intro fr fr2 rest heap name s h
    simp [regGet, h]
  · intro fr heap name s h hk
    simp [regGet, h, hk]
  · intro fr name h
    constructor <;>
      · simp only [getBestKey, h]
        cases hf : fr.factory.find? (fun kv => compareWildcards name kv.1) <;> simp
  · intro fr name v h
    simp [getBestKey, h]
  · intro fr heap name key s item h hk hne hitem
    simp [regGet, h, hk, hne, hitem]

theorem c3_lookup_chain_witness :
    regGet [⟨[("token-xx", ⟨"token-xx", true, .ref 0⟩)], []⟩]
        [(0, ⟨false, [], .undefined⟩)] "token-xx" .undefined
      = ((getFromItem ⟨"token-xx", true, .ref 0⟩ [(0, ⟨false, [], .undefined⟩)] .undefined).1,
         [⟨[("token-xx", ⟨"token-xx", true, .ref 0⟩)], []⟩],
         (getFromItem ⟨"token-xx", true, .ref 0⟩ [(0, ⟨false, [], .undefined⟩)] .undefined).2)
    ∧ (regGet [⟨[], []⟩, ⟨[], []⟩] [] "x" .undefined)
      = ((regGet [(⟨[], []⟩ : RegFrame)] [] "x" .undefined).1,
         (⟨[], []⟩ : RegFrame) :: (regGet [(⟨[], []⟩ : RegFrame)] [] "x" .undefined).2.1,
         (regGet [(⟨[], []⟩ : RegFrame)] [] "x" .undefined).2.2)
    ∧ (regGet [(⟨[], []⟩ : RegFrame)] [] "x" .undefined).1 = none
    ∧ ((getBestKey ⟨[("a", ⟨"a", true, .ref 0⟩)], []⟩ "a").1
        = ((([("a", (⟨"a", true, .ref 0⟩ : FactoryItem))]).find?
            (fun kv => compareWildcards "a" kv.1)).map (fun kv => kv.1))
      ∧ (getBestKey ⟨[("a", ⟨"a", true, .ref 0⟩)], []⟩ "a").2.bestKeys
        = assocSet [] "a" (getBestKey ⟨[("a", ⟨"a", true, .ref 0⟩)], []⟩ "a").1)
    ∧ getBestKey ⟨[], [("q", some "k")]⟩ "q" = (some "k", ⟨[], [("q", some "k")]⟩)
    ∧ (regGet [⟨[("token-xx", ⟨"token-xx", true, .ref 0⟩)], []⟩]
        [(0, ⟨false, [], .undefined⟩)] "token-*" .undefined).1
      = (getFromItem ⟨"token-xx", true, .ref 0⟩ [(0, ⟨false, [], .undefined⟩)] .undefined).1 :=
  ⟨c3_lookup_chain.1 _ [] _ "token-xx" _ _ (by decide),
   c3_lookup_chain.2.1 ⟨[], []⟩ ⟨[], []⟩ [] [] "x" .undefined (by decide),
   c3_lookup_chain.2.2.1 ⟨[], []⟩ [] "x" .undefined (by decide) (by decide),
   c3_lookup_chain.2.2.2.1 ⟨[("a", ⟨"a", true, .ref 0⟩)], []⟩ "a" (by decide),
   c3_lookup_chain.2.2.2.2.1 ⟨[], [("q", some "k")]⟩ "q" (some "k") (by decide),
   c3_lookup_chain.2.2.2.2.2 _ _ "token-*" "token-xx" _ _
     (by decide) (by decide) (by decide) (by decide)⟩

/-! ## Claim C4: singleton identity and `applySettings` -/

/-- Claim C4.  For a name registered as a singleton whose instance exposes
`applySettings`, two successive `get(name, cfg1); get(name, cfg2)` calls
return the identical instance object both times (the same heap cell `r`),
leave the factory chain untouched, and invoke `applySettings` exactly once
per call — the invocation log grows by the two entries
`(instance.settings, cfg1)` and `(instance.settings, cfg2)`. -/
theorem c4_singleton_identity :
    ∀ (fr : RegFrame) (rest : List RegFrame) (heap : Heap) (name : String)
      (item : FactoryItem) (r : Nat) (inst : Instance) (cfg1 cfg2 : JSValue),
      assocLookup fr.factory name = some item →
      item.isSingleton = true →
      item.inst = .ref r →
      heapLookup heap r = some inst →
      inst.hasApplySettings = true →
      (regGet (fr :: rest) heap name cfg1).1 = some r
      ∧ (regGet (fr :: rest) heap name cfg1).2.1 = fr :: rest
      ∧ (regGet (fr :: rest) (regGet (fr :: rest) heap name cfg1).2.2 name cfg2).1
          = some r
      ∧ (heapLookup
          (regGet (fr :: rest) (regGet (fr :: rest) heap name cfg1).2.2 name cfg2).2.2
          r)
        = some { inst with applyLog :=
            inst.applyLog ++ [(inst.settings, cfg1), (inst.settings, cfg2)] } := by
  intro fr rest heap name item r inst cfg1 cfg2 hitem hsing hinst hheap happ
  have heq : ∀ (h : Heap) (i : Instance), heapLookup h r = some i →
      i.hasApplySettings = true →
      getFromItem item h cfg2 = (some r, heapSet h r
        { i with applyLog := i.applyLog ++ [(i.settings, cfg2)] }) := by
    intro h i hh ha
    simp [getFromItem, hsing, hinst, hh, ha]
  have h1 : getFromItem item heap cfg1 = (some r, heapSet heap r
      { inst with applyLog := inst.applyLog ++ [(inst.settings, cfg1)] }) := by
    simp [getFromItem, hsing, hinst, hheap, happ]
  have hlook : heapLookup (heapSet heap r
      { inst with applyLog := inst.applyLog ++ [(inst.settings, cfg1)] }) r
      = some { inst with applyLog := inst.applyLog ++ [(inst.settings, cfg1)] } := by
    clear h1 heq hheap
    induction heap with
    | nil => simp [heapSet, heapLookup]
    | cons kv t ih => by_cases h : kv.1 == r <;> simp [heapSet, heapLookup, h, ih]
  have hg1 : regGet (fr :: rest) heap name cfg1
      = (some r, fr :: rest, heapSet heap r
          { inst with applyLog := inst.applyLog ++ [(inst.settings, cfg1)] }) := by
    cases rest <;> simp [regGet, hitem, h1]
  have h2 := heq _ _ hlook (by simp [happ])
  have hg2 : regGet (fr :: rest) (heapSet heap r
        { inst with applyLog := inst.applyLog ++ [(inst.settings, cfg1)] }) name cfg2
      = (some r, fr :: rest, heapSet (heapSet heap r
          { inst with applyLog := inst.applyLog ++ [(inst.settings, cfg1)] }) r
          { inst with applyLog :=
              inst.applyLog ++ [(inst.settings, cfg1), (inst.settings, cfg2)] }) := by
    cases rest <;> simp [regGet, hitem, h2]
  have hlook2 : heapLookup (heapSet (heapSet heap r
        { inst with applyLog := inst.applyLog ++ [(inst.settings, cfg1)] }) r
        { inst with applyLog :=
            inst.applyLog ++ [(inst.settings, cfg1), (inst.settings, cfg2)] }) r
      = some { inst with applyLog :=
          inst.applyLog ++ [(inst.settings, cfg1), (inst.settings, cfg2)] } := by
    generalize heapSet heap r _ = h0
    induction h0 with
    | nil => simp [heapSet, heapLookup]
    | cons kv t ih => by_cases h : kv.1 == r <;> simp [heapSet, heapLookup, h, ih]
  refine ⟨by simp [hg1], by simp [hg1], by simp [hg1, hg2], by simp [hg1, hg2, hlook2]⟩

theorem c4_singleton_identity_witness :
    (0 < (3 : Nat)) ∧
    ((regGet [⟨[("bot", ⟨"bot", true, .ref 7⟩)], []⟩]
        [(7, ⟨true, [], .str "cfg0"⟩)] "bot" (.str "a")).1 = some 7
    ∧ (regGet [⟨[("bot", ⟨"bot", true, .ref 7⟩)], []⟩]
        [(7, ⟨true, [], .str "cfg0"⟩)] "bot" (.str "a")).2.1
        = [⟨[("bot", ⟨"bot", true, .ref 7⟩)], []⟩]
    ∧ (regGet [⟨[("bot", ⟨"bot", true, .ref 7⟩)], []⟩]
        (regGet [⟨[("bot", ⟨"bot", true, .ref 7⟩)], []⟩]
          [(7, ⟨true, [], .str "cfg0"⟩)] "bot" (.str "a")).2.2 "bot" (.str "b")).1
        = some 7
    ∧ (heapLookup
        (regGet [⟨[("bot", ⟨"bot", true, .ref 7⟩)], []⟩]
          (regGet [⟨[("bot", ⟨"bot", true, .ref 7⟩)], []⟩]
            [(7, ⟨true, [], .str "cfg0"⟩)] "bot" (.str "a")).2.2 "bot" (.str "b")).2.2
        7)
      = some ⟨true, [(.str "cfg0", .str "a"), (.str "cfg0", .str "b")], .str "cfg0"⟩) :=
  ⟨by omega,
   c4_singleton_identity ⟨[("bot", ⟨"bot", true, .ref 7⟩)], []⟩ [] [(7, ⟨true, [], .str "cfg0"⟩)]
     "bot" ⟨"bot", true, .ref 7⟩ 7 ⟨true, [], .str "cfg0"⟩ (.str "a") (.str "b")
     (by decide) (by decide) (by decide) (by decide) (by decide)⟩

/-! ## Claim C7: the JSON round trip -/

def JSObj.keys : JSObj → List String
  | .nil => []
  | .cons k _ r => k :: JSObj.keys r

/-- Induction principle for `JSObj` alone (the mutual recursor has two
motives, which the `induction` tactic cannot use directly). -/
theorem JSObj.ind {P : JSObj → Prop} (hnil : P .nil)
    (hcons : ∀ k v r, P r → P (.cons k v r)) : ∀ f, P f
  | .nil => hnil
  | .cons k v r => hcons k v r (JSObj.ind hnil hcons r)

theorem JSObj.lookup_set_self (f : JSObj) (k : String) (v : JSValue) :
    (f.set k v).lookup k = some v := by
  induction f using JSObj.ind with
  | hnil => simp [JSObj.set, JSObj.lookup]
  | hcons k0 v0 r ih => by_cases h : k0 == k <;> simp [JSObj.set, JSObj.lookup, h, ih]

theorem JSObj.lookup_set_ne (f : JSObj) (k k' : String) (v : JSValue)
    (h : k' ≠ k) : (f.set k v).lookup k' = f.lookup k' := by
  induction f using JSObj.ind with
  | hnil =>
    simp only [JSObj.set, JSObj.lookup, beq_iff_eq]
    rw [if_neg (fun hh => h hh.symm)]
  | hcons k0 v0 r ih =>
    by_cases h0 : k0 == k <;>
      by_cases h1 : k0 == k' <;>
        simp_all [JSObj.set, JSObj.lookup]

theorem JSObj.lookup_remove_ne (f : JSObj) (k k' : String) (h : k' ≠ k) :
    (f.remove k).lookup k' = f.lookup k' := by
  induction f using JSObj.ind with
  | hnil => simp [JSObj.remove, JSObj.lookup]
  | hcons k0 v0 r ih =>
    by_cases h0 : k0 == k <;>
      by_cases h1 : k0 == k' <;>
        simp_all [JSObj.remove, JSObj.lookup]

theorem JSObj.lookup_not_mem (f : JSObj) (k : String) (h : k ∉ f.keys) :
    f.lookup k = none := by
  induction f using JSObj.ind with
  | hnil => rfl
  | hcons k0 v0 r ih =>
    simp only [JSObj.keys, List.mem_cons, not_or] at h
    simp only [JSObj.lookup, beq_iff_eq]
    rw [if_neg (fun hh => h.1 hh.symm)]
    exact ih h.2

theorem JSObj.lookup_remove_self (f : JSObj) (k : String) (h : f.keys.Nodup) :
    (f.remove k).lookup k = none := by
  induction f using JSObj.ind with
  | hnil => rfl
  | hcons k0 v0 r ih =>
    simp only [JSObj.keys, List.nodup_cons] at h
    by_cases h0 : k0 == k
    · simp only [JSObj.remove, h0, if_true]
      simp only [beq_iff_eq] at h0
      subst h0
      exact JSObj.lookup_not_mem r k0 h.1
    · simp_all [JSObj.remove, JSObj.lookup]

theorem JSObj.keys_set (f : JSObj) (k : String) (v : JSValue) :
    (f.set k v).keys = f.keys ∨ (f.set k v).keys = f.keys ++ [k] := by
  induction f using JSObj.ind with
  | hnil => simp [JSObj.set, JSObj.keys]
  | hcons k0 v0 r ih =>
    by_cases h : k0 == k
    · left; simp [JSObj.set, h, JSObj.keys]
    · rcases ih with ih | ih
      · left; simp [JSObj.set, h, JSObj.keys, ih]
      · right; simp [JSObj.set, h, JSObj.keys, ih]

theorem JSObj.mem_keys_set (f : JSObj) (k k' : String) (v : JSValue)
    (h : k' ∈ (f.set k v).keys) : k' ∈ f.keys ∨ k' = k := by
  rcases JSObj.keys_set f k v with hs | hs <;> rw [hs] at h
  · exact Or.inl h
  · simpa using h

theorem JSObj.nodup_set (f : JSObj) (k : String) (v : JSValue)
    (h : f.keys.Nodup) : (f.set k v).keys.Nodup := by
  induction f using JSObj.ind with
  | hnil => simp [JSObj.set, JSObj.keys]
  | hcons k0 v0 r ih =>
    simp only [JSObj.keys, List.nodup_cons] at h
    by_cases h0 : k0 == k
    · simp only [JSObj.set, h0, if_true, JSObj.keys, List.nodup_cons]
      exact ⟨h.1, h.2⟩
    · simp only [JSObj.set, h0, if_false, JSObj.keys, List.nodup_cons]
      refine ⟨fun hm => ?_, ih h.2⟩
      rcases JSObj.mem_keys_set r k k0 v hm with hm | hm
      · exact h.1 hm
      · simp_all
  
theorem JSObj.nodup_assign (a b : JSObj) (h : a.keys.Nodup) :
    (a.assign b).keys.Nodup := by
  induction b using JSObj.ind generalizing a with
  | hnil => simpa [JSObj.assign] using h
  | hcons k v r ih => exact ih _ (JSObj.nodup_set a k v h)

theorem JSObj.lookup_assign_not_mem (a b : JSObj) (k : String)
    (h : k ∉ b.keys) : (a.assign b).lookup k = a.lookup k := by
  induction b using JSObj.ind generalizing a with
  | hnil => simp [JSObj.assign]
  | hcons k0 v0 r ih =>
    simp only [JSObj.keys, List.mem_cons, not_or] at h
    simp only [JSObj.assign]
    rw [ih _ h.2, JSObj.lookup_set_ne _ _ _ _ h.1]

theorem JSObj.lookup_assign_of_lookup (a b : JSObj) (k : String) (v : JSValue)
    (hnd : b.keys.Nodup) (h : b.lookup k = some v) :
    (a.assign b).lookup k = some v := by
  induction b using JSObj.ind generalizing a with
  | hnil => simp [JSObj.lookup] at h
  | hcons k0 v0 r ih =>
    simp only [JSObj.keys, List.nodup_cons] at hnd
    simp only [JSObj.lookup] at h
    by_cases h0 : k0 == k
    · simp only [h0, if_true] at h
      cases h
      simp only [beq_iff_eq] at h0
      subst h0
      simp only [JSObj.assign]
      rw [JSObj.lookup_assign_not_mem _ _ _ hnd.1, JSObj.lookup_set_self]
    · simp only [h0, if_false] at h
      simp only [JSObj.assign]
      exact ih _ hnd.2 h

/-- Claim C7.  For every instance `x` (a JS object, so its keys are
duplicate-free) and every class table whose registered constructors likewise
initialise duplicate-free fields, `fromJSON(toJSON(x))` preserves every
field value of `x`, carries no `className` property, and — when
`x.constructor.name` is registered in `classes` — is an instance of that
registered class (its constructor name is `x`'s). -/
theorem c7_json_roundtrip :
    ∀ (classes : List (String × ClassDef)) (x : JSInstance),
      x.fields.keys.Nodup →
      (∀ cd, assocLookup classes x.ofClass = some cd → cd.ctorFields.keys.Nodup) →
      (∀ k v, k ≠ "className" → x.fields.lookup k = some v →
        (fromJSON classes (toJSON x)).fields.lookup k = some v)
      ∧ (fromJSON classes (toJSON x)).fields.lookup "className" = none
      ∧ (∀ cd, assocLookup classes x.ofClass = some cd →
          (fromJSON classes (toJSON x)).ofClass = x.ofClass) := by
  intro classes x hx hctor
  have ho : (toJSON x).lookup "className" = some (.str x.ofClass) :=
    JSObj.lookup_set_self _ _ _
  have hond : (toJSON x).keys.Nodup := JSObj.nodup_set _ _ _ hx
  cases hcd : assocLookup classes x.ofClass with
  | some cd =>
    have hRes : fromJSON classes (toJSON x)
        = { ofClass := x.ofClass,
            fields := (cd.ctorFields.assign (toJSON x)).remove "className" } := by
      simp [fromJSON, ho, hcd]
    refine ⟨?_, ?_, ?_⟩
    · intro k v hk hkv
      rw [hRes]
      simp only
      rw [JSObj.lookup_remove_ne _ _ _ hk]
      exact JSObj.lookup_assign_of_lookup _ _ _ _ hond
        ((JSObj.lookup_set_ne _ _ _ _ hk).trans hkv)
    · rw [hRes]
      simp only
      exact JSObj.lookup_remove_self _ _ (JSObj.nodup_assign _ _ (hctor cd hcd))
    · intro cd' _
      rw [hRes]
  | none =>
    have hRes : fromJSON classes (toJSON x)
        = { ofClass := "Object", fields := (toJSON x).remove "className" } := by
      simp [fromJSON, ho, hcd]
    refine ⟨?_, ?_, ?_⟩
    · intro k v hk hkv
      rw [hRes]
      simp only
      rw [JSObj.lookup_remove_ne _ _ _ hk]
      exact (JSObj.lookup_set_ne _ _ _ _ hk).trans hkv
    · rw [hRes]
      simp only
      exact JSObj.lookup_remove_self _ _ hond
    · intro cd' hcd'
      exact Option.noConfusion hcd'

theorem c7_json_roundtrip_witness :
    (fromJSON [("Greeter", ⟨.cons "greeting" (.str "hi") .nil⟩)]
        (toJSON ⟨"Greeter", .cons "name" (.str "Ada") .nil⟩)).fields.lookup "name"
      = some (.str "Ada")
    ∧ (fromJSON [("Greeter", ⟨.cons "greeting" (.str "hi") .nil⟩)]
        (toJSON ⟨"Greeter", .cons "name" (.str "Ada") .nil⟩)).fields.lookup "className"
      = none
    ∧ (fromJSON [("Greeter", ⟨.cons "greeting" (.str "hi") .nil⟩)]
        (toJSON ⟨"Greeter", .cons "name" (.str "Ada") .nil⟩)).ofClass = "Greeter" :=
  have h := c7_json_roundtrip [("Greeter", ⟨.cons "greeting" (.str "hi") .nil⟩)]
    ⟨"Greeter", .cons "name" (.str "Ada") .nil⟩ (by decide)
    (by intro cd hcd; simp [assocLookup] at hcd; subst hcd; decide)
  ⟨h.1 "name" (.str "Ada") (by decide) (by decide), h.2.1,
   h.2.2 ⟨.cons "greeting" (.str "hi") .nil⟩ (by decide)⟩

/-! ## Claim C10: falsy intermediate path tokens -/

/-- Does the member walk from an already-resolved root value reach a falsy
value at some non-final token?  (A falsy value at the final token — or a
falsy root when it is the final value — is exempt.) -/
def hasFalsyIntermediate : JSValue → List String → Bool
  | _, [] => false
  | _, [_] => false
  | cur, t :: t2 :: rest =>
    !jsTruthy cur || !jsTruthy (jsMemberD cur t)
      || hasFalsyIntermediate (jsMemberD cur t) (t2 :: rest)

theorem jsMember_of_truthy (cur : JSValue) (t : String)
    (h : jsTruthy cur = true) : jsMember cur t = .ok (jsMemberD cur t) := by
  cases cur <;> simp_all [jsTruthy, jsMember, jsMemberD, Except.toOption]

theorem exceptOkBind {ε α β : Type} (a : α) (f : α → Except ε β) :
    (Except.ok (ε := ε) a >>= f) = f a := rfl

theorem exceptOkBindM {ε α β : Type} (a : α) (f : α → Except ε β) :
    (Except.ok (ε := ε) a).bind f = f a := rfl

theorem walkPath_cons (step : String) (cur : JSValue) (t : String)
    (rest : List String) :
    walkPath step cur (t :: rest)
      = if (!jsTruthy cur || !jsTruthy (jsMemberD cur t)) && !rest.isEmpty then
          .error (.pathNotFound step)
        else (jsMember cur t) >>= fun v => walkPath step v rest := rfl

theorem walkPath_falsy (step : String) :
    ∀ (ts : List String) (cur : JSValue), 2 ≤ ts.length →
      hasFalsyIntermediate cur ts = true →
      walkPath step cur ts = .error (.pathNotFound step)
  | [], _, hlen, _ => by simp at hlen
  | [_], _, hlen, _ => by simp at hlen
  | t :: t2 :: rest, cur, _, hFI => by
    by_cases ha : jsTruthy cur = true
    · by_cases hb : jsTruthy (jsMemberD cur t) = true
      · have hc : hasFalsyIntermediate (jsMemberD cur t) (t2 :: rest) = true := by
          simpa [hasFalsyIntermediate, ha, hb] using hFI
        have hm := jsMember_of_truthy cur t ha
        cases rest with
        | nil => simp [hasFalsyIntermediate] at hc
        | cons t3 rs =>
          have hrec := walkPath_falsy step (t2 :: t3 :: rs) (jsMemberD cur t)
            (by simp) hc
          rw [walkPath_cons, if_neg (by simp [ha, hb]), hm, exceptOkBind]
          exact hrec
      · rw [walkPath_cons, if_pos]
        simp only [Bool.not_eq_true] at hb
        simp [hb]
    · rw [walkPath_cons, if_pos]
      simp only [Bool.not_eq_true] at ha
      simp [ha]

theorem walkPath_ok (step : String) :
    ∀ (ts : List String) (cur : JSValue),
      jsTruthy cur = true →
      hasFalsyIntermediate cur ts = false →
      walkPath step cur ts = .ok (chainD cur ts)
  | [], cur, _, _ => by simp [walkPath, chainD]
  | [t], cur, ht, _ => by
    rw [walkPath_cons, if_neg (by simp), jsMember_of_truthy cur t ht, exceptOkBind]
    simp [walkPath, chainD]
  | t :: t2 :: rest, cur, ht, hFI => by
    have hb : jsTruthy (jsMemberD cur t) = true := by
      by_contra hb
      simp only [Bool.not_eq_true] at hb
      simp [hasFalsyIntermediate, ht, hb] at hFI
    have hc : hasFalsyIntermediate (jsMemberD cur t) (t2 :: rest) = false := by
      simpa [hasFalsyIntermediate, ht, hb] using hFI
    have hrec := walkPath_ok step (t2 :: rest) (jsMemberD cur t) hb hc
    rw [walkPath_cons, if_neg (by simp [ht, hb]), jsMember_of_truthy cur t ht,
      exceptOkBind]
    exact hrec

theorem hasFalsyIntermediate_root (ts : List String) (cur : JSValue)
    (hlen : 2 ≤ ts.length) (h : hasFalsyIntermediate cur ts = false) :
    jsTruthy cur = true := by
  match ts, hlen with
  | t :: t2 :: rest, _ =>
    by_contra ht
    simp [Bool.not_eq_true] at ht
    simp [hasFalsyIntermediate, ht] at h

/-- Claim C10.  For a step whose dotted split has at least two tokens after
the root (and whose head is not a literal form, so the walk actually runs),
with the root resolving to `root`: whenever the walk's value at a non-final
token is falsy — absent, `null`, `false`, `0`, `NaN` or the empty string,
even when the key exists and holds that falsy value — `resolvePathWithType`
throws `PathNotFound(step)`; and when no non-final value is falsy, it does
not throw: it returns a reference whose value is the final token's lookup
result (which may itself be falsy or absent). -/
theorem c10_falsy_intermediate :
    ∀ (getFn : String → Option JSValue) (step : String) (st : ExecState)
      (root : JSValue),
      3 ≤ (strSplitOn step '.').length →
      literalHead step = false →
      rootValue getFn (headToken step) st = .ok root →
      (hasFalsyIntermediate root (strSplitOn step '.').tail = true →
        resolvePathWithType getFn step st = .error (.pathNotFound step))
      ∧ (hasFalsyIntermediate root (strSplitOn step '.').tail = false →
        resolvePathWithType getFn step st
          = .ok (.reference (chainD root (strSplitOn step '.').tail))) := by
  intro getFn step st root hlen hlit hroot
  simp only [literalHead, Bool.or_eq_false_iff] at hlit
  obtain ⟨⟨⟨⟨h1, h2⟩, h3⟩, h4⟩, h5⟩ := hlit
  have htail : 2 ≤ (strSplitOn step '.').tail.length := by
    cases hsp : strSplitOn step '.' with
    | nil => rw [hsp] at hlen; simp at hlen
    | cons a l => rw [hsp] at hlen; simpa using hlen
  have hbody : resolvePathWithType getFn step st
      = (rootValue getFn (headToken step) st).bind (fun r =>
          (walkPath step r (strSplitOn step '.').tail).bind (fun v =>
            .ok (.reference v))) := by
    simp only [resolvePathWithType, h1, h2, h3, h4, h5, if_false,
      Bool.false_eq_true, beq_iff_eq]
    rfl
  constructor
  · intro hFI
    rw [hbody, hroot, exceptOkBindM]
    rw [walkPath_falsy step _ root htail hFI]
    rfl
  · intro hFI
    rw [hbody, hroot, exceptOkBindM]
    rw [walkPath_ok step _ root (hasFalsyIntermediate_root _ root htail hFI) hFI]
    rfl

theorem c10_falsy_intermediate_witness :
    resolvePathWithType emptyGet "input.a.b"
        ⟨.obj .nil, .obj (.cons "a" (.num 0) .nil), .undefined⟩
      = .error (.pathNotFound "input.a.b")
    ∧ resolvePathWithType emptyGet "input.a.b"
        ⟨.obj .nil, .obj (.cons "a" (.obj (.cons "b" (.num 0) .nil)) .nil), .undefined⟩
      = .ok (.reference (.num 0)) :=
  ⟨(c10_falsy_intermediate emptyGet "input.a.b"
      ⟨.obj .nil, .obj (.cons "a" (.num 0) .nil), .undefined⟩
      (.obj (.cons "a" (.num 0) .nil))
      (by decide) (by decide) (by decide)).1 (by decide),
   ((c10_falsy_intermediate emptyGet "input.a.b"
      ⟨.obj .nil, .obj (.cons "a" (.obj (.cons "b" (.num 0) .nil)) .nil), .undefined⟩
      (.obj (.cons "a" (.obj (.cons "b" (.num 0) .nil)) .nil))
      (by decide) (by decide) (by decide)).2 (by decide)).trans (by decide)⟩

/-! ### Claim C6, amended: machinery

The amendment's side conditions: every `goto`/`je`/`jne` operand must name a
label the prescan recorded, and no `set`/`inc`/`dec`/`delete` instruction
may target the context's `cursor` or `labels` fields (a pipeline is free to
write into the context — e.g. `set x 5` writes `context.x` — and such a
write to `cursor` or `labels` would forge an arbitrary cursor). -/

def isJumpKind (k : String) : Bool := k == "goto" || k == "je" || k == "jne"

/-- The jump side condition for one instruction: a jump's label operand
exists, carries a value, and is recorded in the label map.  (A missing
operand token is allowed: `step[1].value` throws before `doGoto` runs.) -/
def instrJumpSafe (L : JSObj) (instr : List Token) : Bool :=
  match instr.head? with
  | some (.opTok k) =>
    if isJumpKind k then
      match instr.get? 1 with
      | some t1 =>
        match tokenValue t1 with
        | some v => (L.lookup v).isSome
        | none => false
      | none => true
    else true
  | _ => true

def jumpsResolved (compiled : List (List Token)) (L : JSObj) : Bool :=
  compiled.all (instrJumpSafe L)

/-- Which context field does a write through the parent path `np` (with
final write key `writeKey`) touch?  Mirrors `resolveLoc`'s root selection:
paths rooted at `input`/`output`/`this` never touch the context; a
`context`-rooted path touches its first key after the root (or, with no
further keys, the write key itself); any other head token is itself the
first context key. -/
def ctxSafeParent (np writeKey : String) : Bool :=
  let npTokens := strSplitOn np '.'
  let head := headToken np
  if head == "input" || head == "output" || head == "this" then true
  else
    let touched := if head == "context" then ((npTokens.get? 1).getD writeKey) else head
    !(touched == "cursor" || touched == "labels")

/-- The write side condition for one instruction (conservative: `inc` with a
`.`-prefixed path — which appends an extra `this` token — is simply
excluded). -/
def instrWriteSafe (instr : List Token) : Bool :=
  match instr.head? with
  | some (.opTok k) =>
    if k == "set" || k == "delete" || k == "dec" then
      match instr.get? 1 with
      | some t1 =>
        match tokenValue t1 with
        | some p =>
          ctxSafeParent (dotJoin (strSplitOn p '.').dropLast) (lastTok (strSplitOn p '.'))
        | none => true
      | none => true
    else if k == "inc" then
      match instr.get? 1 with
      | some t1 =>
        match tokenValue t1 with
        | some p =>
          !(strStartsWith p ".")
            && ctxSafeParent (dotJoin (strSplitOn p '.').dropLast) (lastTok (strSplitOn p '.'))
        | none => true
      | none => true
    else true
  | _ => true

def writesSafe (compiled : List (List Token)) : Bool :=
  compiled.all instrWriteSafe

/-- All label-map values are numbers below `len`. -/
def labelsBoundB : JSObj → Nat → Bool
  | .nil, _ => true
  | .cons _ v r, len =>
    (match v with
      | .num n => decide (0 ≤ n ∧ n < (len : Int))
      | _ => false) && labelsBoundB r len

theorem labelsBound_lookup : ∀ (L : JSObj) (len : Nat) (k : String) (v : JSValue),
    labelsBoundB L len = true → L.lookup k = some v →
    ∃ i : Nat, v = .num i ∧ i < len
  | .nil, _, _, _, _, h => by simp [JSObj.lookup] at h
  | .cons k0 v0 r, len, k, v, hb, h => by
    simp only [labelsBoundB, Bool.and_eq_true] at hb
    simp only [JSObj.lookup] at h
    by_cases h0 : k0 == k
    · rw [if_pos h0] at h
      cases h
      cases v0 <;> simp_all
      rename_i n
      obtain ⟨⟨hge, hlt⟩, -⟩ := hb
      exact ⟨n.toNat, by omega, by omega⟩
    · rw [if_neg h0] at h
      exact labelsBound_lookup r len k v hb.2 h

theorem labelsBoundB_set (L : JSObj) (len : Nat) (k : String) (i : Nat)
    (hb : labelsBoundB L len = true) (hi : i < len) :
    labelsBoundB (L.set k (.num i)) len = true := by
  induction L using JSObj.ind with
  | hnil => simp [JSObj.set, labelsBoundB]; omega
  | hcons k0 v0 r ih =>
    simp only [labelsBoundB, Bool.and_eq_true] at hb
    by_cases h0 : k0 == k
    · simp only [JSObj.set, h0, if_true, labelsBoundB, Bool.and_eq_true]
      refine ⟨by simp; omega, hb.2⟩
    · simp only [JSObj.set, h0, if_false, labelsBoundB, Bool.and_eq_true]
      exact ⟨hb.1, ih hb.2⟩

theorem findLabelsGo_bound :
    ∀ (rest : List (List Token)) (i : Nat) (acc L : JSObj) (len : Nat),
      labelsBoundB acc len = true →
      i + rest.length ≤ len →
      findLabelsGo rest i acc = .ok L →
      labelsBoundB L len = true
  | [], i, acc, L, len, hacc, _, h => by
    simp only [findLabelsGo] at h
    cases h
    exact hacc
  | current :: rest, i, acc, L, len, hacc, hlen, h => by
    simp only [findLabelsGo] at h
    cases hhd : current.head? with
    | none =>
      simp only [hhd] at h
      exact Except.noConfusion h
    | some t0 =>
      simp only [hhd] at h
      by_cases ht : t0 = Token.opTok "label"
      · rw [if_pos ht] at h
        cases hg : current.get? 1 with
        | none =>
          simp only [hg] at h
          exact Except.noConfusion h
        | some t1 =>
          simp only [hg] at h
          refine findLabelsGo_bound rest (i + 1) _ L len ?_ (by simp at hlen ⊢; omega) h
          exact labelsBoundB_set acc len _ i hacc (by simp at hlen; omega)
      · rw [if_neg ht] at h
        exact findLabelsGo_bound rest (i + 1) acc L len hacc
          (by simp at hlen ⊢; omega) h

theorem findLabelsE_bound (compiled : List (List Token)) (L : JSObj)
    (h : findLabelsE compiled = .ok L) :
    labelsBoundB L compiled.length = true :=
  findLabelsGo_bound compiled 0 .nil L compiled.length rfl (by omega) h

theorem exceptErrBind {ε α β : Type} (e : ε) (f : α → Except ε β) :
    (Except.error (α := α) e >>= f) = .error e := rfl

theorem jsMemberD_setField_ne (v : JSValue) (k k' : String) (w : JSValue)
    (h : k' ≠ k) : jsMemberD (jsSetField v k w) k' = jsMemberD v k' := by
  cases v <;>
    simp [jsSetField, jsMemberD, jsMember, Except.toOption,
      JSObj.lookup_set_ne _ _ _ _ h]

theorem jsMemberD_setField_self_obj (f : JSObj) (k : String) (w : JSValue) :
    jsMemberD (jsSetField (.obj f) k w) k = w := by
  simp [jsSetField, jsMemberD, jsMember, Except.toOption, JSObj.lookup_set_self]

theorem ctx_obj_of_labels {st : ExecState} {L : JSObj}
    (h : jsMemberD st.ctx "labels" = .obj L) : ∃ cf, st.ctx = .obj cf := by
  cases hc : st.ctx <;>
    rw [hc] at h <;>
    simp [jsMemberD, jsMember, Except.toOption] at h
  exact ⟨_, rfl⟩

theorem jsUpdateAt_nil_lookup (v v' : JSValue) (upd : JSObj → JSObj) (k : String)
    (h : jsUpdateAt v [] upd = .ok v')
    (hupd : ∀ f, (upd f).lookup k = f.lookup k) :
    jsMemberD v' k = jsMemberD v k := by
  cases v <;> simp only [jsUpdateAt] at h <;> try exact Except.noConfusion h
  cases h
  simp [jsMemberD, jsMember, Except.toOption, hupd]

theorem jsUpdateAt_cons_lookup (v v' : JSValue) (k0 : String) (ks : List String)
    (upd : JSObj → JSObj) (k : String)
    (h : jsUpdateAt v (k0 :: ks) upd = .ok v') (hk : k ≠ k0) :
    jsMemberD v' k = jsMemberD v k := by
  cases v <;> simp only [jsUpdateAt] at h <;> try exact Except.noConfusion h
  rcases hin : jsUpdateAt _ ks upd with e | w <;> rw [hin] at h
  · exact Except.noConfusion h
  · simp only [exceptOkBind] at h
    cases h
    simp [jsMemberD, jsMember, Except.toOption, JSObj.lookup_set_ne _ _ _ _ hk]

/-- If a write location rooted in the context was produced by `resolveLoc`
on a parent path that `ctxSafeParent` approves, neither the traversed first
key nor (for a root-level write) the write key is `cursor` or `labels`. -/
theorem exceptPureBind {ε α β : Type} (a : α) (f : α → Except ε β) :
    ((pure a : Except ε α) >>= f) = f a := rfl

/-- If a write location rooted in the context was produced by `resolveLoc`
on a parent path that `ctxSafeParent` approves, neither the traversed first
key nor (for a root-level write) the write key is `cursor` or `labels`. -/
theorem resolveLoc_safe (getFn : String → Option JSValue) (np wk : String)
    (st : ExecState) (keys : List String)
    (hsafe : ctxSafeParent np wk = true)
    (hres : resolveLoc getFn np st = .ok (.ctx, keys)) :
    (keys = [] → (wk == "cursor" || wk == "labels") = false)
    ∧ (∀ k0 ks, keys = k0 :: ks → (k0 == "cursor" || k0 == "labels") = false) := by
  by_cases hlit : literalHead np = true
  · simp [resolveLoc, hlit] at hres
  · simp only [Bool.not_eq_true] at hlit
    simp only [resolveLoc, hlit, Bool.false_eq_true, if_false] at hres
    by_cases h1 : (headToken np == "input" || headToken np == "output") = true
    · rw [if_pos h1] at hres
      simp only [exceptOkBind, exceptPureBind] at hres
      rcases hw : walkPath np (stReadRoot st PathRoot.inp) (strSplitOn np '.').tail
          with e | v <;> simp [hw, exceptOkBind, exceptErrBind] at hres
    · rw [if_neg h1] at hres
      by_cases h2 : (headToken np != "context" && headToken np != "this") = true
      · rw [if_pos h2] at hres
        by_cases hg : jsTruthy ((getFn (headToken np)).getD .undefined) = true
        · rw [if_pos hg] at hres
          simp [exceptErrBind] at hres
        · rw [if_neg hg] at hres
          simp only [exceptOkBind] at hres
          rcases hb : jsMember (stReadRoot st PathRoot.ctx) (headToken np)
              with e | b <;>
            simp only [hb, exceptOkBind, exceptErrBind] at hres
          · exact Except.noConfusion hres
          · rcases hw : walkPath np b (strSplitOn np '.').tail with e | v <;>
              simp only [hw, exceptOkBind, exceptErrBind] at hres
            · exact Except.noConfusion hres
            · simp only [Except.ok.injEq, Prod.mk.injEq, List.cons_append,
                List.nil_append, true_and] at hres
              have hns : (headToken np == "cursor" || headToken np == "labels")
                  = false := by
                simp only [ctxSafeParent] at hsafe
                rw [if_neg (by simp_all [Bool.or_eq_true])] at hsafe
                simp only [Bool.and_eq_true, bne_iff_ne] at h2
                rw [if_neg (by simp [h2.1])] at hsafe
                simpa using hsafe
              refine ⟨fun hk => ?_, fun k0 ks hk => ?_⟩
              · rw [← hres] at hk
                exact List.noConfusion hk
              · rw [← hres] at hk
                cases hk
                exact hns
      · rw [if_neg h2] at hres
        by_cases h3 : (headToken np == "this") = true
        · rw [if_pos h3] at hres
          simp only [exceptOkBind, exceptPureBind] at hres
          rcases hw : walkPath np (stReadRoot st PathRoot.src) (strSplitOn np '.').tail
              with e | v <;> simp [hw, exceptOkBind, exceptErrBind] at hres
        · rw [if_neg h3] at hres
          simp only [exceptOkBind, exceptPureBind] at hres
          rcases hw : walkPath np (stReadRoot st PathRoot.ctx) (strSplitOn np '.').tail
              with e | v <;>
            simp only [hw, exceptOkBind, exceptErrBind] at hres
          · exact Except.noConfusion hres
          · simp only [Except.ok.injEq, Prod.mk.injEq, List.nil_append,
              true_and] at hres
            have hctx : (headToken np == "context") = true := by
              simp only [Bool.and_eq_true, bne_iff_ne] at h2
              simp only [Bool.not_eq_true] at h3
              simp only [beq_eq_false_iff_ne] at h3
              by_contra hc
              simp only [Bool.not_eq_true, beq_eq_false_iff_ne] at hc
              exact h2 ⟨hc, h3⟩
            simp only [ctxSafeParent] at hsafe
            rw [if_neg (by simp_all [Bool.or_eq_true])] at hsafe
            rw [if_pos hctx] at hsafe
            refine ⟨fun hk => ?_, fun k0 ks hk => ?_⟩
            · rw [← hres] at hk
              have hg1 : (strSplitOn np '.').get? 1 = none := by
                cases hsp : strSplitOn np '.' with
                | nil => rfl
                | cons a t =>
                  rw [hsp] at hk
                  simp only [List.tail_cons] at hk
                  rw [hk]
                  rfl
              rw [hg1] at hsafe
              simpa using hsafe
            · rw [← hres] at hk
              have hg1 : (strSplitOn np '.').get? 1 = some k0 := by
                cases hsp : strSplitOn np '.' with
                | nil => rw [hsp] at hk; exact List.noConfusion hk
                | cons a t =>
                  rw [hsp] at hk
                  simp only [List.tail_cons] at hk
                  rw [hk]
                  rfl
              rw [hg1] at hsafe
              simpa using hsafe

theorem updateRoot_preserves (st : ExecState) (root : PathRoot)
    (keys : List String) (upd : JSObj → JSObj) (v' : JSValue)
    (h : jsUpdateAt (stReadRoot st root) keys upd = .ok v')
    (hnil : root = PathRoot.ctx → keys = [] →
      (∀ f, (upd f).lookup "cursor" = f.lookup "cursor")
      ∧ (∀ f, (upd f).lookup "labels" = f.lookup "labels"))
    (hcons : ∀ k0 ks, root = PathRoot.ctx → keys = k0 :: ks →
      (k0 == "cursor" || k0 == "labels") = false) :
    jsMemberD (stWithRoot st root v').ctx "cursor" = jsMemberD st.ctx "cursor"
    ∧ jsMemberD (stWithRoot st root v').ctx "labels" = jsMemberD st.ctx "labels" := by
  cases root with
  | inp => simp [stWithRoot]
  | src => simp [stWithRoot]
  | ctx =>
    simp only [stReadRoot] at h
    simp only [stWithRoot]
    cases keys with
    | nil =>
      obtain ⟨hc, hl⟩ := hnil rfl rfl
      exact ⟨jsUpdateAt_nil_lookup _ _ _ _ h hc,
             jsUpdateAt_nil_lookup _ _ _ _ h hl⟩
    | cons k0 ks =>
      have hk' := hcons k0 ks rfl rfl
      simp only [Bool.or_eq_false_iff, beq_eq_false_iff_ne] at hk'
      exact ⟨jsUpdateAt_cons_lookup _ _ _ _ _ _ h (Ne.symm hk'.1),
             jsUpdateAt_cons_lookup _ _ _ _ _ _ h (Ne.symm hk'.2)⟩

theorem locWrite_preserves (getFn : String → Option JSValue) (np wk : String)
    (st : ExecState) (loc : PathRoot × List String) (v' : JSValue)
    (upd : JSObj → JSObj)
    (hsafe : ctxSafeParent np wk = true)
    (hloc : resolveLoc getFn np st = .ok loc)
    (hupd : jsUpdateAt (stReadRoot st loc.1) loc.2 upd = .ok v')
    (hCL : (wk == "cursor" || wk == "labels") = false →
      (∀ f, (upd f).lookup "cursor" = f.lookup "cursor")
      ∧ (∀ f, (upd f).lookup "labels" = f.lookup "labels")) :
    jsMemberD (stWithRoot st loc.1 v').ctx "cursor" = jsMemberD st.ctx "cursor"
    ∧ jsMemberD (stWithRoot st loc.1 v').ctx "labels" = jsMemberD st.ctx "labels" := by
  have hsr : ∀ hr : loc.1 = PathRoot.ctx,
      (loc.2 = [] → (wk == "cursor" || wk == "labels") = false)
      ∧ (∀ k0 ks, loc.2 = k0 :: ks → (k0 == "cursor" || k0 == "labels") = false) := by
    intro hr
    refine resolveLoc_safe getFn np wk st loc.2 hsafe ?_
    rw [← hr]
    exact hloc
  refine updateRoot_preserves st loc.1 loc.2 upd v' hupd ?_ ?_
  · intro hr hk
    exact hCL ((hsr hr).1 hk)
  · intro k0 ks hr hk
    exact (hsr hr).2 k0 ks hk

theorem updSet_CL (wk : String) (x : JSValue)
    (hwk : (wk == "cursor" || wk == "labels") = false) :
    (∀ f : JSObj, (f.set wk x).lookup "cursor" = f.lookup "cursor")
    ∧ (∀ f : JSObj, (f.set wk x).lookup "labels" = f.lookup "labels") := by
  simp only [Bool.or_eq_false_iff, beq_eq_false_iff_ne] at hwk
  exact ⟨fun f => JSObj.lookup_set_ne f wk "cursor" x (Ne.symm hwk.1),
         fun f => JSObj.lookup_set_ne f wk "labels" x (Ne.symm hwk.2)⟩

theorem updRemove_CL (wk : String)
    (hwk : (wk == "cursor" || wk == "labels") = false) :
    (∀ f : JSObj, (f.remove wk).lookup "cursor" = f.lookup "cursor")
    ∧ (∀ f : JSObj, (f.remove wk).lookup "labels" = f.lookup "labels") := by
  simp only [Bool.or_eq_false_iff, beq_eq_false_iff_ne] at hwk
  exact ⟨fun f => JSObj.lookup_remove_ne f wk "cursor" (Ne.symm hwk.1),
         fun f => JSObj.lookup_remove_ne f wk "labels" (Ne.symm hwk.2)⟩

theorem setValue_preserves (getFn : String → Option JSValue) (p : String)
    (vp : Option String) (st st' : ExecState)
    (hsafe : ctxSafeParent (dotJoin (strSplitOn p '.').dropLast)
      (lastTok (strSplitOn p '.')) = true)
    (h : setValue getFn (some p) vp st = .ok st') :
    jsMemberD st'.ctx "cursor" = jsMemberD st.ctx "cursor"
    ∧ jsMemberD st'.ctx "labels" = jsMemberD st.ctx "labels" := by
  simp only [setValue] at h
  rcases hv : resolvePathO getFn vp st with e | value <;>
    simp only [hv, exceptOkBind, exceptErrBind] at h
  · exact Except.noConfusion h
  rcases hloc : resolveLoc getFn (dotJoin (strSplitOn p '.').dropLast) st
      with e | loc <;> simp only [hloc, exceptOkBind, exceptErrBind] at h
  · exact Except.noConfusion h
  rcases hupd : jsUpdateAt (stReadRoot st loc.1) loc.2
      (fun f => f.set (lastTok (strSplitOn p '.')) value) with e | v' <;>
    simp only [hupd, exceptOkBind, exceptErrBind] at h
  · exact Except.noConfusion h
  cases h
  exact locWrite_preserves getFn _ _ st loc v' _ hsafe hloc hupd
    (fun hwk => updSet_CL _ value hwk)

theorem incValue_preserves (getFn : String → Option JSValue) (p : String)
    (vp : Option String) (st st' : ExecState)
    (hdot : strStartsWith p "." = false)
    (hsafe : ctxSafeParent (dotJoin (strSplitOn p '.').dropLast)
      (lastTok (strSplitOn p '.')) = true)
    (h : incValue getFn (some p) vp st = .ok st') :
    jsMemberD st'.ctx "cursor" = jsMemberD st.ctx "cursor"
    ∧ jsMemberD st'.ctx "labels" = jsMemberD st.ctx "labels" := by
  simp only [incValue, hdot, Bool.false_eq_true, if_false] at h
  rcases hv : resolvePathO getFn vp st with e | value <;>
    simp only [hv, exceptOkBind, exceptErrBind] at h
  · exact Except.noConfusion h
  rcases hloc : resolveLoc getFn (dotJoin (strSplitOn p '.').dropLast) st
      with e | loc <;> simp only [hloc, exceptOkBind, exceptErrBind] at h
  · exact Except.noConfusion h
  rcases hupd : jsUpdateAt (stReadRoot st loc.1) loc.2
      (fun f => f.set (lastTok (strSplitOn p '.'))
        (jsAdd (jsMemberD (chainD (stReadRoot st loc.1) loc.2)
          (lastTok (strSplitOn p '.'))) value)) with e | v' <;>
    simp only [hupd, exceptOkBind, exceptErrBind] at h
  · exact Except.noConfusion h
  cases h
  exact locWrite_preserves getFn _ _ st loc v' _ hsafe hloc hupd
    (fun hwk => updSet_CL _ _ hwk)

theorem decValue_preserves (getFn : String → Option JSValue) (p : String)
    (vp : Option String) (st st' : ExecState)
    (hsafe : ctxSafeParent (dotJoin (strSplitOn p '.').dropLast)
      (lastTok (strSplitOn p '.')) = true)
    (h : decValue getFn (some p) vp st = .ok st') :
    jsMemberD st'.ctx "cursor" = jsMemberD st.ctx "cursor"
    ∧ jsMemberD st'.ctx "labels" = jsMemberD st.ctx "labels" := by
  simp only [decValue] at h
  rcases hv : resolvePathO getFn vp st with e | value <;>
    simp only [hv, exceptOkBind, exceptErrBind] at h
  · exact Except.noConfusion h
  rcases hloc : resolveLoc getFn (dotJoin (strSplitOn p '.').dropLast) st
      with e | loc <;> simp only [hloc, exceptOkBind, exceptErrBind] at h
  · exact Except.noConfusion h
  rcases hupd : jsUpdateAt (stReadRoot st loc.1) loc.2
      (fun f => f.set (lastTok (strSplitOn p '.'))
        (jsSub (jsMemberD (chainD (stReadRoot st loc.1) loc.2)
          (lastTok (strSplitOn p '.'))) value)) with e | v' <;>
    simp only [hupd, exceptOkBind, exceptErrBind] at h
  · exact Except.noConfusion h
  cases h
  exact locWrite_preserves getFn _ _ st loc v' _ hsafe hloc hupd
    (fun hwk => updSet_CL _ _ hwk)

theorem deleteValue_preserves (getFn : String → Option JSValue) (p : String)
    (st st' : ExecState)
    (hsafe : ctxSafeParent (dotJoin (strSplitOn p '.').dropLast)
      (lastTok (strSplitOn p '.')) = true)
    (h : deleteValue getFn (some p) st = .ok st') :
    jsMemberD st'.ctx "cursor" = jsMemberD st.ctx "cursor"
    ∧ jsMemberD st'.ctx "labels" = jsMemberD st.ctx "labels" := by
  simp only [deleteValue] at h
  rcases hloc : resolveLoc getFn (dotJoin (strSplitOn p '.').dropLast) st
      with e | loc <;> simp only [hloc, exceptOkBind, exceptErrBind] at h
  · exact Except.noConfusion h
  rcases hupd : jsUpdateAt (stReadRoot st loc.1) loc.2
      (fun f => f.remove (lastTok (strSplitOn p '.'))) with e | v' <;>
    simp only [hupd, exceptOkBind, exceptErrBind] at h
  · exact Except.noConfusion h
  cases h
  exact locWrite_preserves getFn _ _ st loc v' _ hsafe hloc hupd
    (fun hwk => updRemove_CL _ hwk)

theorem cmpValue_preserves (getFn : String → Option JSValue)
    (op : JSValue → JSValue → Bool) (pA pB : Option String) (st st' : ExecState)
    (h : cmpValue getFn op pA pB st = .ok st') :
    jsMemberD st'.ctx "cursor" = jsMemberD st.ctx "cursor"
    ∧ jsMemberD st'.ctx "labels" = jsMemberD st.ctx "labels" := by
  simp only [cmpValue] at h
  rcases hA : resolvePathO getFn pA st with e | vA <;>
    simp only [hA, exceptOkBind, exceptErrBind] at h
  · exact Except.noConfusion h
  rcases hB : resolvePathO getFn pB st with e | vB <;>
    simp only [hB, exceptOkBind, exceptErrBind] at h
  · exact Except.noConfusion h
  cases h
  exact ⟨jsMemberD_setField_ne _ _ _ _ (by decide),
         jsMemberD_setField_ne _ _ _ _ (by decide)⟩

theorem executeReference_state (getFn : String → Option JSValue)
    (step : List Token) (ft : Token) (st : ExecState) (r : JSValue × ExecState)
    (h : executeReference getFn step ft st = .ok r) : r.2 = st := by
  simp only [executeReference] at h
  rcases h1 : resolvePathO getFn (tokenValue ft) st with e | cur <;>
    simp only [h1, exceptOkBind, exceptErrBind] at h
  · exact Except.noConfusion h
  rcases h2 : resolveArgs getFn step.tail st with e | u <;>
    simp only [h2, exceptOkBind, exceptErrBind] at h
  · exact Except.noConfusion h
  by_cases h3 : jsTruthy cur = true
  · simp only [h3, Bool.not_true, Bool.false_eq_true, if_false] at h
    cases h
    rfl
  · simp only [Bool.not_eq_true] at h3
    simp only [h3, Bool.not_false, if_true] at h
    exact Except.noConfusion h

theorem doGoto_CL {st st' : ExecState} {L : JSObj} (lbl : Option String)
    {idx : JSValue}
    (hLab : jsMemberD st.ctx "labels" = .obj L)
    (hidx : L.lookup ((lbl).getD "undefined") = some idx)
    (h : doGoto lbl st = .ok st') :
    jsMemberD st'.ctx "cursor" = idx
    ∧ jsMemberD st'.ctx "labels" = jsMemberD st.ctx "labels" := by
  obtain ⟨cf, hcf⟩ := ctx_obj_of_labels hLab
  have hmd := hLab
  rw [hcf] at hmd
  simp only [jsMemberD, jsMember, Except.toOption, Option.getD_some] at hmd
  have hm : jsMember st.ctx "labels" = .ok (.obj L) := by
    rw [hcf]
    simp only [jsMember, hmd]
  simp only [doGoto, hm, exceptOkBind] at h
  have hm2 : jsMember (JSValue.obj L) ((lbl).getD "undefined") = .ok idx := by
    simp only [jsMember, hidx, Option.getD_some]
  rw [hm2] at h
  simp only [exceptOkBind] at h
  cases h
  constructor
  · simp only [hcf]
    exact jsMemberD_setField_self_obj cf "cursor" idx
  · exact jsMemberD_setField_ne _ _ _ _ (by decide)

theorem setValue_none_not_ok (getFn : String → Option JSValue)
    (vp : Option String) (st st' : ExecState)
    (h : setValue getFn none vp st = .ok st') : False := by
  simp only [setValue] at h
  rcases hv : resolvePathO getFn vp st with e | value <;>
    simp only [hv, exceptOkBind, exceptErrBind] at h <;>
    exact Except.noConfusion h

theorem incValue_none_not_ok (getFn : String → Option JSValue)
    (vp : Option String) (st st' : ExecState)
    (h : incValue getFn none vp st = .ok st') : False := by
  simp only [incValue] at h
  rcases hv : resolvePathO getFn vp st with e | value <;>
    simp only [hv, exceptOkBind, exceptErrBind] at h <;>
    exact Except.noConfusion h

theorem decValue_none_not_ok (getFn : String → Option JSValue)
    (vp : Option String) (st st' : ExecState)
    (h : decValue getFn none vp st = .ok st') : False := by
  simp only [decValue] at h
  rcases hv : resolvePathO getFn vp st with e | value <;>
    simp only [hv, exceptOkBind, exceptErrBind] at h <;>
    exact Except.noConfusion h

theorem incArm_none (getFn : String → Option JSValue) (vp : Option String)
    (st : ExecState) (v : JSValue) (st' : ExecState)
    (h : (incValue getFn none vp st >>= fun s => Except.ok (s.inp, s))
      = Except.ok (v, st')) : False := by
  rcases hsv : incValue getFn none vp st with e | s <;>
    simp only [hsv, exceptOkBind, exceptErrBind] at h
  · exact Except.noConfusion h
  · exact incValue_none_not_ok _ _ _ _ hsv

theorem decArm_none (getFn : String → Option JSValue) (vp : Option String)
    (st : ExecState) (v : JSValue) (st' : ExecState)
    (h : (decValue getFn none vp st >>= fun s => Except.ok (s.inp, s))
      = Except.ok (v, st')) : False := by
  rcases hsv : decValue getFn none vp st with e | s <;>
    simp only [hsv, exceptOkBind, exceptErrBind] at h
  · exact Except.noConfusion h
  · exact decValue_none_not_ok _ _ _ _ hsv

theorem executeActionF_CL (getFn : String → Option JSValue)
    (env : List (String × BuiltPipeline)) (instr : List Token) (st : ExecState)
    (depth fuel : Nat) (L : JSObj) (len : Nat) (v : JSValue) (st' : ExecState)
    (hLab : jsMemberD st.ctx "labels" = .obj L)
    (hBound : labelsBoundB L len = true)
    (hj : instrJumpSafe L instr = true)
    (hw : instrWriteSafe instr = true)
    (h : executeActionF getFn env instr st depth fuel = .ok (v, st')) :
    jsMemberD st'.ctx "labels" = jsMemberD st.ctx "labels"
    ∧ (jsMemberD st'.ctx "cursor" = jsMemberD st.ctx "cursor"
       ∨ ∃ i : Nat, jsMemberD st'.ctx "cursor" = .num i ∧ i < len) := by
  cases fuel with
  | zero => exact Except.noConfusion h
  | succ fuel =>
  simp only [executeActionF] at h
  cases hh : instr.head? with
  | none =>
    simp only [hh] at h
    exact Except.noConfusion h
  | some ft0 =>
  simp only [hh] at h
  split at h
  · -- `->` prefix at positive depth: skipped instruction
    cases h
    exact ⟨rfl, Or.inl rfl⟩
  · cases hft0 : ft0 with
    | comment s0 =>
      rw [hft0] at h
      simp only [tokenValue, tokenWithValue, Option.getD_some] at h
      by_cases hpp : strStartsWith s0 "->" = true
      · rw [if_pos hpp] at h
        cases h
        exact ⟨rfl, Or.inl rfl⟩
      · rw [if_neg hpp] at h
        cases h
        exact ⟨rfl, Or.inl rfl⟩
    | call s0 =>
      rw [hft0] at h
      simp only [tokenValue, tokenWithValue, Option.getD_some] at h
      by_cases hpp : strStartsWith s0 "->" = true
      · rw [if_pos hpp] at h
        rcases hgp : getPipelineR env (strDrop s0 2) with _ | p <;>
          simp only [hgp] at h
        · exact Except.noConfusion h
        · rcases hrun : runPipelineF getFn env (.pipe p) st.inp st.src (depth + 1) fuel
              with e | r <;>
            simp only [hrun, exceptOkBind, exceptErrBind] at h
          · exact Except.noConfusion h
          · cases h
            exact ⟨rfl, Or.inl rfl⟩
      · rw [if_neg hpp] at h
        rcases hgp : getPipelineR env s0 with _ | p <;>
          simp only [hgp] at h
        · exact Except.noConfusion h
        · rcases hrun : runPipelineF getFn env (.pipe p) st.inp st.src (depth + 1) fuel
              with e | r <;>
            simp only [hrun, exceptOkBind, exceptErrBind] at h
          · exact Except.noConfusion h
          · cases h
            exact ⟨rfl, Or.inl rfl⟩
    | reference s0 =>
      rw [hft0] at h
      simp only [tokenValue, tokenWithValue, Option.getD_some] at h
      by_cases hpp : strStartsWith s0 "->" = true
      · rw [if_pos hpp] at h
        have h2 : executeReference getFn instr
            (Token.reference (strDrop s0 2)) st = .ok (v, st') := h
        have hst := executeReference_state _ _ _ _ _ h2
        simp only at hst
        rw [hst]
        exact ⟨rfl, Or.inl rfl⟩
      · rw [if_neg hpp] at h
        have h2 : executeReference getFn instr
            (Token.reference s0) st = .ok (v, st') := h
        have hst := executeReference_state _ _ _ _ _ h2
        simp only at hst
        rw [hst]
        exact ⟨rfl, Or.inl rfl⟩
    | opTok k =>
      rw [hft0] at h
      rw [hft0] at hh
      simp only [show tokenValue (Token.opTok k) = none from rfl,
        Bool.false_eq_true, if_false] at h
      simp only [instrJumpSafe, hh] at hj
      simp only [instrWriteSafe, hh] at hw
      split at h
      · -- set
        rw [if_pos (by decide)] at hw
        cases hg1 : instr.get? 1 with
        | none => simp only [hg1] at h; exact Except.noConfusion h
        | some t1 =>
          simp only [hg1] at h hw
          rcases hsv : setValue getFn (tokenValue t1)
              ((instr.get? 2).bind tokenValue) st with e | st1 <;>
            simp only [hsv, exceptOkBind, exceptErrBind] at h
          · exact Except.noConfusion h
          · cases h
            cases hv1 : tokenValue t1 with
            | none =>
              rw [hv1] at hsv
              exact absurd (setValue_none_not_ok _ _ _ _ hsv) (fun f => f)
            | some p =>
              rw [hv1] at hsv hw
              have hp := setValue_preserves getFn p _ st st' hw hsv
              exact ⟨hp.2, Or.inl hp.1⟩
      · -- delete
        rw [if_pos (by decide)] at hw
        cases hg1 : instr.get? 1 with
        | none => simp only [hg1] at h; exact Except.noConfusion h
        | some t1 =>
          simp only [hg1] at h hw
          rcases hsv : deleteValue getFn (tokenValue t1) st with e | st1 <;>
            simp only [hsv, exceptOkBind, exceptErrBind] at h
          · exact Except.noConfusion h
          · cases h
            cases hv1 : tokenValue t1 with
            | none =>
              rw [hv1] at hsv
              simp only [deleteValue] at hsv
              exact Except.noConfusion hsv
            | some p =>
              rw [hv1] at hsv hw
              have hp := deleteValue_preserves getFn p st st' hw hsv
              exact ⟨hp.2, Or.inl hp.1⟩
      · -- get
        rcases hg : getValue getFn ((instr.get? 1).bind tokenValue) st with e | v0 <;>
          simp only [hg, exceptOkBind, exceptErrBind] at h
        · exact Except.noConfusion h
        · cases h
          exact ⟨rfl, Or.inl rfl⟩
      · -- inc
        rw [if_neg (by decide), if_pos (by decide)] at hw
        cases hg1 : instr.get? 1 with
        | none =>
          simp only [hg1, Option.none_bind] at h
          exact (incArm_none getFn _ st v st' h).elim
        | some t1 =>
          simp only [hg1, Option.some_bind] at h
          simp only [hg1] at hw
          cases hv1 : tokenValue t1 with
          | none =>
            rw [hv1] at h
            exact (incArm_none getFn _ st v st' h).elim
          | some p =>
            rw [hv1] at h hw
            simp only [Bool.and_eq_true, Bool.not_eq_true'] at hw
            cases hg2 : instr.get? 2 with
            | none =>
              simp only [hg2] at h
              rcases hsv : incValue getFn (some p) (some "1") st with e | st1 <;>
                simp only [hsv, exceptOkBind, exceptErrBind] at h
              · exact Except.noConfusion h
              · cases h
                have hp := incValue_preserves getFn p _ st st' hw.1 hw.2 hsv
                exact ⟨hp.2, Or.inl hp.1⟩
            | some t2 =>
              simp only [hg2] at h
              rcases hsv : incValue getFn (some p) (tokenValue t2) st with e | st1 <;>
                simp only [hsv, exceptOkBind, exceptErrBind] at h
              · exact Except.noConfusion h
              · cases h
                have hp := incValue_preserves getFn p _ st st' hw.1 hw.2 hsv
                exact ⟨hp.2, Or.inl hp.1⟩
      · -- dec
        rw [if_pos (by decide)] at hw
        cases hg1 : instr.get? 1 with
        | none =>
          simp only [hg1, Option.none_bind] at h
          exact (decArm_none getFn _ st v st' h).elim
        | some t1 =>
          simp only [hg1, Option.some_bind] at h
          simp only [hg1] at hw
          cases hv1 : tokenValue t1 with
          | none =>
            rw [hv1] at h
            exact (decArm_none getFn _ st v st' h).elim
          | some p =>
            rw [hv1] at h hw
            cases hg2 : instr.get? 2 with
            | none =>
              simp only [hg2] at h
              rcases hsv : decValue getFn (some p) (some "1") st with e | st1 <;>
                simp only [hsv, exceptOkBind, exceptErrBind] at h
              · exact Except.noConfusion h
              · cases h
                have hp := decValue_preserves getFn p _ st st' hw hsv
                exact ⟨hp.2, Or.inl hp.1⟩
            | some t2 =>
              simp only [hg2] at h
              rcases hsv : decValue getFn (some p) (tokenValue t2) st with e | st1 <;>
                simp only [hsv, exceptOkBind, exceptErrBind] at h
              · exact Except.noConfusion h
              · cases h
                have hp := decValue_preserves getFn p _ st st' hw hsv
                exact ⟨hp.2, Or.inl hp.1⟩
      · -- eq
        rcases hc : eqValue getFn ((instr.get? 1).bind tokenValue)
            ((instr.get? 2).bind tokenValue) st with e | st1 <;>
          simp only [hc, exceptOkBind, exceptErrBind] at h
        · exact Except.noConfusion h
        · cases h
          have hp := cmpValue_preserves getFn jsStrictEq _ _ st st' hc
          exact ⟨hp.2, Or.inl hp.1⟩
      · -- neq
        rcases hc : neqValue getFn ((instr.get? 1).bind tokenValue)
            ((instr.get? 2).bind tokenValue) st with e | st1 <;>
          simp only [hc, exceptOkBind, exceptErrBind] at h
        · exact Except.noConfusion h
        · cases h
          have hp := cmpValue_preserves getFn _ _ _ st st' hc
          exact ⟨hp.2, Or.inl hp.1⟩
      · -- gt
        rcases hc : gtValue getFn ((instr.get? 1).bind tokenValue)
            ((instr.get? 2).bind tokenValue) st with e | st1 <;>
          simp only [hc, exceptOkBind, exceptErrBind] at h
        · exact Except.noConfusion h
        · cases h
          have hp := cmpValue_preserves getFn _ _ _ st st' hc
          exact ⟨hp.2, Or.inl hp.1⟩
      · -- ge
        rcases hc : geValue getFn ((instr.get? 1).bind tokenValue)
            ((instr.get? 2).bind tokenValue) st with e | st1 <;>
          simp only [hc, exceptOkBind, exceptErrBind] at h
        · exact Except.noConfusion h
        · cases h
          have hp := cmpValue_preserves getFn _ _ _ st st' hc
          exact ⟨hp.2, Or.inl hp.1⟩
      · -- lt
        rcases hc : ltValue getFn ((instr.get? 1).bind tokenValue)
            ((instr.get? 2).bind tokenValue) st with e | st1 <;>
          simp only [hc, exceptOkBind, exceptErrBind] at h
        · exact Except.noConfusion h
        · cases h
          have hp := cmpValue_preserves getFn _ _ _ st st' hc
          exact ⟨hp.2, Or.inl hp.1⟩
      · -- le
        rcases hc : leValue getFn ((instr.get? 1).bind tokenValue)
            ((instr.get? 2).bind tokenValue) st with e | st1 <;>
          simp only [hc, exceptOkBind, exceptErrBind] at h
        · exact Except.noConfusion h
        · cases h
          have hp := cmpValue_preserves getFn _ _ _ st st' hc
          exact ⟨hp.2, Or.inl hp.1⟩
      · -- goto
        rw [if_pos (by decide)] at hj
        cases hg1 : instr.get? 1 with
        | none => simp only [hg1] at h; exact Except.noConfusion h
        | some t1 =>
          simp only [hg1] at h hj
          cases hv1 : tokenValue t1 with
          | none => rw [hv1] at hj; exact Bool.noConfusion hj
          | some lbl =>
            rw [hv1] at h hj
            obtain ⟨idx, hidx⟩ := Option.isSome_iff_exists.mp hj
            rcases hdg : doGoto (some lbl) st with e | st1 <;>
              simp only [hdg, exceptOkBind, exceptErrBind] at h
            · exact Except.noConfusion h
            · cases h
              have hgl := doGoto_CL (some lbl) hLab (by simpa using hidx) hdg
              obtain ⟨i, hi, hilt⟩ := labelsBound_lookup L len lbl idx hBound hidx
              exact ⟨hgl.2, Or.inr ⟨i, by rw [hgl.1, hi], hilt⟩⟩
      · -- jne
        rw [if_pos (by decide)] at hj
        rcases hfl : jsMember st.ctx "floating" with e | fl <;>
          simp only [hfl, exceptOkBind, exceptErrBind] at h
        · exact Except.noConfusion h
        · split at h
          · cases hg1 : instr.get? 1 with
            | none => simp only [hg1] at h; exact Except.noConfusion h
            | some t1 =>
              simp only [hg1] at h hj
              cases hv1 : tokenValue t1 with
              | none => rw [hv1] at hj; exact Bool.noConfusion hj
              | some lbl =>
                rw [hv1] at h hj
                obtain ⟨idx, hidx⟩ := Option.isSome_iff_exists.mp hj
                rcases hdg : doGoto (some lbl) st with e | st1 <;>
                  simp only [hdg, exceptOkBind, exceptErrBind] at h
                · exact Except.noConfusion h
                · cases h
                  have hgl := doGoto_CL (some lbl) hLab (by simpa using hidx) hdg
                  obtain ⟨i, hi, hilt⟩ := labelsBound_lookup L len lbl idx hBound hidx
                  exact ⟨hgl.2, Or.inr ⟨i, by rw [hgl.1, hi], hilt⟩⟩
          · cases h
            exact ⟨rfl, Or.inl rfl⟩
      · -- je
        rw [if_pos (by decide)] at hj
        rcases hfl : jsMember st.ctx "floating" with e | fl <;>
          simp only [hfl, exceptOkBind, exceptErrBind] at h
        · exact Except.noConfusion h
        · split at h
          · cases hg1 : instr.get? 1 with
            | none => simp only [hg1] at h; exact Except.noConfusion h
            | some t1 =>
              simp only [hg1] at h hj
              cases hv1 : tokenValue t1 with
              | none => rw [hv1] at hj; exact Bool.noConfusion hj
              | some lbl =>
                rw [hv1] at h hj
                obtain ⟨idx, hidx⟩ := Option.isSome_iff_exists.mp hj
                rcases hdg : doGoto (some lbl) st with e | st1 <;>
                  simp only [hdg, exceptOkBind, exceptErrBind] at h
                · exact Except.noConfusion h
                · cases h
                  have hgl := doGoto_CL (some lbl) hLab (by simpa using hidx) hdg
                  obtain ⟨i, hi, hilt⟩ := labelsBound_lookup L len lbl idx hBound hidx
                  exact ⟨hgl.2, Or.inr ⟨i, by rw [hgl.1, hi], hilt⟩⟩
          · cases h
            exact ⟨rfl, Or.inl rfl⟩
      · -- label and any other operation word: no-op
        cases h
        exact ⟨rfl, Or.inl rfl⟩

theorem execStepF_CL (getFn : String → Option JSValue)
    (env : List (String × BuiltPipeline)) (compiled : List (List Token))
    (st : ExecState) (depth fuel : Nat) (L : JSObj) (st3 : ExecState)
    (hLab : jsMemberD st.ctx "labels" = .obj L)
    (hBound : labelsBoundB L compiled.length = true)
    (hJ : jumpsResolved compiled L = true)
    (hW : writesSafe compiled = true)
    (hCur : ∃ i : Nat, jsMemberD st.ctx "cursor" = .num i ∧ i ≤ compiled.length)
    (h : execStepF getFn env compiled st depth fuel = .ok (some st3)) :
    jsMemberD st3.ctx "labels" = .obj L
    ∧ ∃ i : Nat, jsMemberD st3.ctx "cursor" = .num i ∧ i ≤ compiled.length := by
  cases fuel with
  | zero => exact Except.noConfusion h
  | succ fuel =>
  obtain ⟨i, hi, hile⟩ := hCur
  simp only [execStepF] at h
  rw [hi] at h
  by_cases hlt : jsLt (JSValue.num i) (JSValue.num compiled.length) = true
  · rw [if_pos hlt] at h
    have hilt : i < compiled.length := by
      have h2 := hlt
      simp only [jsLt, decide_eq_true_eq] at h2
      exact_mod_cast h2
    simp only [Int.natCast_nonneg, if_true, Int.toNat_natCast] at h
    cases hinstr : compiled.get? i with
    | none =>
      simp only [hinstr] at h
      exact Except.noConfusion h
    | some instr =>
      simp only [hinstr] at h
      rcases hact : executeActionF getFn env instr st depth fuel with e | r <;>
        simp only [hact] at h
      · exact Except.noConfusion h
      · obtain ⟨v, st2⟩ := r
        cases h
        have hmem : instr ∈ compiled := List.get?_mem hinstr
        simp only [jumpsResolved] at hJ
        simp only [writesSafe] at hW
        have hj := List.all_eq_true.mp hJ instr hmem
        have hw := List.all_eq_true.mp hW instr hmem
        have hres := executeActionF_CL getFn env instr st depth fuel L
          compiled.length v st2 hLab hBound hj hw hact
        obtain ⟨hl2, hc2⟩ := hres
        rw [hLab] at hl2
        obtain ⟨cf2, hcf2⟩ := ctx_obj_of_labels hl2
        constructor
        · show jsMemberD (jsSetField st2.ctx "cursor"
            (jsAdd (jsMemberD st2.ctx "cursor") (.num 1))) "labels" = .obj L
          rw [jsMemberD_setField_ne _ _ _ _ (by decide : "labels" ≠ "cursor")]
          exact hl2
        · have hm : ∃ m : Nat,
              jsMemberD st2.ctx "cursor" = .num m ∧ m < compiled.length := by
            rcases hc2 with hsame | ⟨j, hj2, hjlt⟩
            · exact ⟨i, by rw [hsame, hi], hilt⟩
            · exact ⟨j, hj2, hjlt⟩
          obtain ⟨m, hmv, hmlt⟩ := hm
          refine ⟨m + 1, ?_, by omega⟩
          show jsMemberD (jsSetField st2.ctx "cursor"
            (jsAdd (jsMemberD st2.ctx "cursor") (.num 1))) "cursor" = .num (m + 1)
          rw [hmv, hcf2, jsMemberD_setField_self_obj]
          exact congrArg JSValue.num (by omega)
  · rw [if_neg hlt] at h
    injection h with h2
    exact Option.noConfusion h2

theorem loopTrace_CL (getFn : String → Option JSValue)
    (env : List (String × BuiltPipeline)) (compiled : List (List Token))
    (depth : Nat) (L : JSObj)
    (hBound : labelsBoundB L compiled.length = true)
    (hJ : jumpsResolved compiled L = true)
    (hW : writesSafe compiled = true) :
    ∀ (fuel : Nat) (st : ExecState),
      jsMemberD st.ctx "labels" = .obj L →
      (∃ i : Nat, jsMemberD st.ctx "cursor" = .num i ∧ i ≤ compiled.length) →
      (loopTrace getFn env compiled st depth fuel).all
        (cursorInRangeB compiled.length) = true := by
  intro fuel
  induction fuel with
  | zero => intro st _ _; rfl
  | succ fuel ih =>
    intro st hLab hCur
    have hhead : cursorInRangeB compiled.length (cursorVal st) = true := by
      obtain ⟨i, hi, hile⟩ := hCur
      simp only [cursorVal, hi, cursorInRangeB, decide_eq_true_eq]
      constructor
      · exact_mod_cast Nat.zero_le i
      · exact_mod_cast hile
    simp only [loopTrace]
    rcases hstep : execStepF getFn env compiled st depth fuel with e | o
    · simp only [hstep, List.all_cons, hhead, Bool.true_and]
      rfl
    · cases o with
      | none =>
        simp only [hstep, List.all_cons, hhead, Bool.true_and]
        rfl
      | some st3 =>
        simp only [hstep, List.all_cons, hhead, Bool.true_and]
        have hinv := execStepF_CL getFn env compiled st depth fuel L st3
          hLab hBound hJ hW hCur hstep
        exact ih st3 hinv.1 hinv.2

/-- **C6** (amended).  The spec's cursor-range invariant holds under the two
side conditions the counterexample `c6_missing_label_escapes` shows to be
necessary: every `goto`/`je`/`jne` operand must be a label the `findLabels`
prescan recorded, and no `set`/`delete`/`inc`/`dec` instruction may write
`context.cursor` or `context.labels`.  Under those conditions every cursor
value observed at a loop-condition check of `execute` is a number in
`[0, compiled.length]`. -/
theorem c6_cursor_invariant (getFn : String → Option JSValue)
    (env : List (String × BuiltPipeline)) (compiled : List (List Token))
    (inp so : JSValue) (depth fuel : Nat) (L : JSObj)
    (hfind : findLabelsE compiled = .ok L)
    (hJ : jumpsResolved compiled L = true)
    (hW : writesSafe compiled = true) :
    (executeTrace getFn env compiled inp so depth fuel).all
      (cursorInRangeB compiled.length) = true := by
  cases fuel with
  | zero => rfl
  | succ fuel =>
  simp only [executeTrace, hfind]
  refine loopTrace_CL getFn env compiled depth L
    (findLabelsE_bound compiled L hfind) hJ hW fuel _ ?_ ⟨0, ?_, Nat.zero_le _⟩
  · simp [jsMemberD, jsMember, JSObj.lookup, Except.toOption]
  · simp [jsMemberD, jsMember, JSObj.lookup, Except.toOption]

/-- Witness for the amended C6 theorem on a concrete three-line program with
a resolved forward jump. -/
theorem c6_cursor_invariant_witness :
    findLabelsE (compile ["goto end", "set input.x 1", "label end"])
        = .ok (.cons "end" (.num 2) .nil)
    ∧ jumpsResolved (compile ["goto end", "set input.x 1", "label end"])
        (.cons "end" (.num 2) .nil) = true
    ∧ writesSafe (compile ["goto end", "set input.x 1", "label end"]) = true
    ∧ (executeTrace emptyGet [] (compile ["goto end", "set input.x 1", "label end"])
        (.obj .nil) .undefined 0 20).all
      (cursorInRangeB (compile ["goto end", "set input.x 1", "label end"]).length)
        = true :=
  ⟨by decide, by decide, by decide,
    c6_cursor_invariant emptyGet [] _ (.obj .nil) .undefined 0 20
      (.cons "end" (.num 2) .nil) (by decide) (by decide) (by decide)⟩
